import Mathlib

/-!
Verification development for the release/publish orchestration core of the
vscode-repo-manager extension.  The TypeScript sources under `src/lib`
(`npmPublisher.ts`, `githubManager.ts`, `gitManager.ts`) are shallowly
embedded below: pure string manipulation is translated to executable Lean
functions on `List Char` (JavaScript string primitives such as `split`,
`trim`, `startsWith`, `includes` are re-implemented structurally so that
concrete evaluations go through the kernel), and the interactive /
effectful orchestration flows are translated to pure functions from an
explicit environment (user answers, external command results, file
contents) to a trace of user-visible effects.
-/

namespace RepoMgr

/-! ## JavaScript string primitives, modelled on `List Char` -/

/-- JS `needle.length === 0 ? ... : haystack.startsWith(needle)`;
`List.isPrefixOf` is structural, so concrete instances reduce. -/
def startsWithCh (s pat : List Char) : Bool := pat.isPrefixOf s

/-- JS `s.includes(pat)`: some suffix of `s` has `pat` as a prefix. -/
def containsCh : List Char → List Char → Bool
  | [], pat => pat.isEmpty
  | s@(_ :: tl), pat => pat.isPrefixOf s || containsCh tl pat

/-- JS `s.split(sep)` for a single-character separator: adjacent separators
produce empty fields and the result is never empty (`"".split` gives `[""]`). -/
def splitOnCh (c : Char) : List Char → List (List Char)
  | [] => [[]]
  | x :: xs =>
    let r := splitOnCh c xs
    if x = c then [] :: r
    else
      match r with
      | h :: t => (x :: h) :: t
      | [] => [[x]]

/-- JS `s.trim()`: strip whitespace from both ends. -/
def trimCh (s : List Char) : List Char :=
  ((s.dropWhile Char.isWhitespace).reverse.dropWhile Char.isWhitespace).reverse

/-- JS `parts.join(sep)` for a single-character separator. -/
def joinCh (c : Char) : List (List Char) → List Char
  | [] => []
  | [l] => l
  | l :: ls => l ++ c :: joinCh c ls

/-! ## `npmPublisher.containsAuthToken` (npmPublisher.ts:1372-1408) -/

/-- One iteration of the `for` loop of `containsAuthToken`: `line` is an
already-trimmed line, `content` the whole file (used by the `always-auth`
clause, which consults `content.includes("_auth")`).  The loop skips blank
and comment lines (`continue`) and returns true at the first of its four
early-return pattern checks, so its contribution is the conjunction of
"not skipped" with the disjunction of the four checks, in source order. -/
def authTokenLine (line content : List Char) : Bool :=
  !(line.isEmpty || startsWithCh line "#".data || startsWithCh line ";".data)
    && (containsCh line ":_authToken=".data || containsCh line ":_auth=".data
      || startsWithCh line "_authToken=".data || startsWithCh line "_auth=".data
      || startsWithCh line "authToken=".data
      || containsCh line "//registry.npmjs.org/:_authToken=".data
      || (startsWithCh line "always-auth=true".data && containsCh content "_auth".data))

/-- `containsAuthToken(content)`: split into lines, trim each, return true as
soon as some line carries one of the credential patterns. -/
def containsAuthToken (content : String) : Bool :=
  ((splitOnCh '\n' content.data).map trimCh).any (fun l => authTokenLine l content.data)

/-! ## `npmPublisher.checkNpmAuth` (npmPublisher.ts:26-100) -/

/-- State of an `.npmrc` file as `checkNpmAuth` can observe it:
absent (`fs.existsSync` false), present but unreadable (`readFileSync`
throws), or present with readable content. -/
inductive NpmrcFile where
  | missing
  | unreadable
  | readable (content : String)
deriving DecidableEq

/-- The four authentication environment variables read by `checkNpmAuth`
(`process.env.X` is a string or undefined). -/
structure EnvVars where
  npmTokenUpper : Option String       -- NPM_TOKEN
  npmTokenLower : Option String       -- npm_token
  npmAuthToken : Option String        -- NPM_AUTH_TOKEN
  npmConfigAuthtoken : Option String  -- npm_config_authtoken
deriving DecidableEq

/-- JS truthiness of `process.env.X`: defined and non-empty. -/
def jsTruthy : Option String → Bool
  | none => false
  | some s => !s.data.isEmpty

/-- JS `a || b` on string-or-undefined values. -/
def jsOr (a b : Option String) : Option String := if jsTruthy a then a else b

/-- The condition `if (npmToken || npmAuthToken || npmConfigAuthtoken)`. -/
def envHasAuthVar (e : EnvVars) : Bool :=
  jsTruthy (jsOr e.npmTokenUpper e.npmTokenLower) || jsTruthy e.npmAuthToken
    || jsTruthy e.npmConfigAuthtoken

def npmrcExists : NpmrcFile → Bool
  | .missing => false
  | _ => true

/-- An `.npmrc` file contributes to `hasToken` exactly when it exists, is
readable, and `containsAuthToken` accepts its content. -/
def npmrcHasCred : NpmrcFile → Bool
  | .readable c => containsAuthToken c
  | _ => false

/-- Result shape of `checkNpmAuth` (the human-readable `details` list is
display-only and omitted from the embedding). -/
structure AuthState where
  hasToken : Bool
  hasNpmrc : Bool
  authMethod : String
deriving DecidableEq

/-- `checkNpmAuth(workingDir)`: environment variables first, then the local
and the global `.npmrc`, accumulating `hasToken` / `hasNpmrc` / `authMethod`
exactly as the source mutates its local variables. -/
def checkNpmAuth (e : EnvVars) (localNpmrc globalNpmrc : NpmrcFile) : AuthState :=
  let hasToken := envHasAuthVar e
  let authMethod := if envHasAuthVar e then "environment" else "none"
  let hasNpmrc := npmrcExists localNpmrc
  let hasToken := hasToken || npmrcHasCred localNpmrc
  let authMethod :=
    if npmrcHasCred localNpmrc then
      (if authMethod = "none" then "npmrc" else "both")
    else authMethod
  let hasNpmrc := hasNpmrc || npmrcExists globalNpmrc
  let hasToken := hasToken || npmrcHasCred globalNpmrc
  let authMethod :=
    if npmrcHasCred globalNpmrc then
      (if authMethod = "none" then "npmrc" else "both")
    else authMethod
  ⟨hasToken, hasNpmrc, authMethod⟩

/-! ## `npmPublisher.checkNpmLogin` (npmPublisher.ts:576-634) -/

/-- Result of one `executeNpmCommand` invocation. -/
structure CmdResult where
  success : Bool
  output : String
  error : Option String
  timedOut : Bool
deriving DecidableEq

/-- The verification applied to an `npm whoami` result:
`result.success && result.output.trim() && !result.output.includes("ENEEDAUTH")`. -/
def okWhoami (r : CmdResult) : Bool :=
  r.success && !(trimCh r.output.data).isEmpty
    && !containsCh r.output.data "ENEEDAUTH".data

/-- Decision core of `checkNpmLogin`: the control flow reads only
`authCheck.hasToken` (never `hasNpmrc`); `whoami` is the stream of results of
successive `npm whoami` executions, consumed from index `start`. -/
def checkNpmLoginDecision (hasToken : Bool) (whoami : Nat → CmdResult) (start : Nat) : Bool :=
  if hasToken then
    if okWhoami (whoami start) then true else okWhoami (whoami (start + 1))
  else
    okWhoami (whoami start)

/-- Number of `npm whoami` executions consumed by one `checkNpmLogin` call. -/
def whoamiConsumed (hasToken : Bool) (whoami : Nat → CmdResult) (start : Nat) : Nat :=
  if hasToken then (if okWhoami (whoami start) then start + 1 else start + 2)
  else start + 1

/-- `checkNpmLogin(workingDir)` as a boolean decision. -/
def checkNpmLogin (e : EnvVars) (l g : NpmrcFile) (whoami : Nat → CmdResult)
    (start : Nat) : Bool :=
  checkNpmLoginDecision (checkNpmAuth e l g).hasToken whoami start

/-! ## The `semver` dependency, as used by `githubManager.suggestNextVersions`

`suggestNextVersions` calls `semver.inc(version, release[, identifier])`.
The npm `semver` library parses strictly (`v`-prefix and surrounding
whitespace allowed, `MAJOR.MINOR.PATCH` with optional dash-separated
prerelease identifiers and `+build`), and `inc` returns the bumped version
string, or `null` when the input does not parse — it never throws on a
string input. -/

inductive PreId where
  | num (n : Nat)
  | str (s : List Char)
deriving DecidableEq

structure SemVerV where
  major : Nat
  minor : Nat
  patch : Nat
  pre : List PreId
deriving DecidableEq

def isDigitCh (c : Char) : Bool := '0' ≤ c && c ≤ '9'

def isIdentCh (c : Char) : Bool :=
  isDigitCh c || ('a' ≤ c && c ≤ 'z') || ('A' ≤ c && c ≤ 'Z') || c = '-'

def natOfDigits (s : List Char) : Nat :=
  s.foldl (fun a c => a * 10 + (c.toNat - 48)) 0

/-- Strict numeric component `(0|[1-9]\d*)`. -/
def parseNumStrict (s : List Char) : Option Nat :=
  if s = ['0'] then some 0
  else if !s.isEmpty && s.head? ≠ some '0' && s.all isDigitCh then some (natOfDigits s)
  else none

/-- One prerelease identifier: `0|[1-9]\d*|\d*[a-zA-Z-][a-zA-Z0-9-]*`. -/
def parsePreId (s : List Char) : Option PreId :=
  if s.isEmpty then none
  else if s.all isDigitCh then (parseNumStrict s).map PreId.num
  else if s.all isIdentCh then some (PreId.str s)
  else none

/-- Break a char list at the first occurrence of `c` (exclusive). -/
def breakOnCh (c : Char) : List Char → List Char × Option (List Char)
  | [] => ([], none)
  | x :: xs =>
    if x = c then ([], some xs)
    else
      let (a, b) := breakOnCh c xs
      (x :: a, b)

def sequenceOpt : List (Option α) → Option (List α)
  | [] => some []
  | none :: _ => none
  | some a :: rest => (sequenceOpt rest).map (a :: ·)

/-- Parse a semver string: trim, optional leading `v`, core `x.y.z`, optional
`-prerelease`, optional `+build` (build metadata is validated and discarded —
`SemVer.version`, the string `inc` returns, never includes it). -/
def parseSemVer (s : String) : Option SemVerV :=
  let t := trimCh s.data
  let t := match t with
           | 'v' :: rest => rest
           | _ => t
  let (beforeBuild, build) := breakOnCh '+' t
  let buildOk := match build with
                 | none => true
                 | some b => (splitOnCh '.' b).all (fun p => !p.isEmpty && p.all isIdentCh)
  let (core, preStr) := breakOnCh '-' beforeBuild
  let preOk : Option (List PreId) :=
    match preStr with
    | none => some []
    | some p => sequenceOpt ((splitOnCh '.' p).map parsePreId)
  match splitOnCh '.' core, preOk, buildOk with
  | [ma, mi, pa], some pre, true =>
    match parseNumStrict ma, parseNumStrict mi, parseNumStrict pa with
    | some major, some minor, some patch => some ⟨major, minor, patch, pre⟩
    | _, _, _ => none
  | _, _, _ => none

/-- Decimal digits of a natural number (fueled, structural). -/
def natDigitsAux : Nat → Nat → List Char
  | 0, _ => []
  | _ + 1, 0 => []
  | fuel + 1, n => natDigitsAux fuel (n / 10) ++ [Char.ofNat (48 + n % 10)]

def natToChars (n : Nat) : List Char :=
  if n = 0 then ['0'] else natDigitsAux (n + 1) n

def preIdChars : PreId → List Char
  | .num n => natToChars n
  | .str s => s

/-- `SemVer.version` / the string returned by `inc`:
`major.minor.patch` plus `-id.id...` when a prerelease is present. -/
def formatSemVer (v : SemVerV) : String :=
  ⟨natToChars v.major ++ '.' :: natToChars v.minor ++ '.' :: natToChars v.patch ++
    (if v.pre.isEmpty then [] else '-' :: joinCh '.' (v.pre.map preIdChars))⟩

/-- `inc('patch')`: drop a pending prerelease, otherwise bump patch. -/
def incPatch (v : SemVerV) : SemVerV :=
  if v.pre.isEmpty then ⟨v.major, v.minor, v.patch + 1, []⟩
  else ⟨v.major, v.minor, v.patch, []⟩

/-- `inc('minor')`. -/
def incMinor (v : SemVerV) : SemVerV :=
  if v.patch ≠ 0 || v.pre.isEmpty then ⟨v.major, v.minor + 1, 0, []⟩
  else ⟨v.major, v.minor, 0, []⟩

/-- `inc('major')`. -/
def incMajor (v : SemVerV) : SemVerV :=
  if v.minor ≠ 0 || v.patch ≠ 0 || v.pre.isEmpty then ⟨v.major + 1, 0, 0, []⟩
  else ⟨v.major, 0, 0, []⟩

/-- Increment the rightmost numeric prerelease identifier, if any. -/
def bumpRightmostNum : List PreId → Option (List PreId)
  | [] => none
  | x :: xs =>
    match bumpRightmostNum xs with
    | some xs2 => some (x :: xs2)
    | none => match x with
              | .num n => some (.num (n + 1) :: xs)
              | .str _ => none

/-- The `'pre'` step of `inc` without identifier handling. -/
def incPreStep (pre : List PreId) : List PreId :=
  if pre.isEmpty then [PreId.num 0]
  else match bumpRightmostNum pre with
       | some pre2 => pre2
       | none => pre ++ [PreId.num 0]

/-- Identifier adjustment of the `'pre'` step: keep `beta.N`, otherwise
restart at `beta.0`. -/
def applyPreIdent (pre : List PreId) (id : List Char) : List PreId :=
  match pre with
  | PreId.str s :: rest =>
    if s = id then
      match rest with
      | PreId.num _ :: _ => pre
      | _ => [PreId.str id, PreId.num 0]
    else [PreId.str id, PreId.num 0]
  | _ => [PreId.str id, PreId.num 0]

/-- `inc('prerelease', 'beta')`: bump patch first when not already a
prerelease, then apply the `'pre'` step with identifier `beta`. -/
def incPrereleaseBeta (v : SemVerV) : SemVerV :=
  let v1 := if v.pre.isEmpty then incPatch v else v
  { v1 with pre := applyPreIdent (incPreStep v1.pre) "beta".data }

inductive IncKind where
  | patch
  | minor
  | major
  | prereleaseBeta

/-- `semver.inc(version, release[, 'beta'])`: `null` when parsing fails. -/
def semverInc (version : String) (k : IncKind) : Option String :=
  (parseSemVer version).map fun v =>
    formatSemVer (match k with
      | .patch => incPatch v
      | .minor => incMinor v
      | .major => incMajor v
      | .prereleaseBeta => incPrereleaseBeta v)

/-! ## `githubManager.suggestNextVersions` (githubManager.ts:546-572)

The source wraps the four `semver.inc` calls in `try`/`catch` with a
`versions.push("1.0.0")` fallback in the `catch`; since `semver.inc`
returns `null` instead of throwing on unparseable input, the `catch`
branch is unreachable and the fallback is dead code. -/

def suggestNextVersions (currentVersion : String) : List String :=
  let patch := semverInc currentVersion .patch
  let minor := semverInc currentVersion .minor
  let major := semverInc currentVersion .major
  let prerelease := semverInc currentVersion .prereleaseBeta
  (match patch with | some p => [p] | none => [])
    ++ (match minor with | some p => [p] | none => [])
    ++ (match major with | some p => [p] | none => [])
    ++ (match prerelease with | some p => [p] | none => [])

/-! ## Commit classification (githubManager.ts:682-750)

`groupCommitsByType` matches each commit message against
`/^(feat|fix|docs|style|refactor|perf|test|chore)(\([^)]*\))?:/` and uses
capture 1 as the type, defaulting to `"other"`;
`filterCommitsForPackage` matches against
`/^(feat|fix|docs|style|refactor|perf|test|chore)(\(([^)]+)\))?:/` and uses
capture 3 (the scope without parentheses, non-empty in this variant). -/

structure Commit where
  hash : String
  message : String
  date : String
deriving DecidableEq

/-- The eight alternatives of the type group of both regexes, in
alternation order.  The set is prefix-free, so at most one alternative can
match at the start of a message and alternation order is immaterial. -/
def knownCommitTypes : List String :=
  ["feat", "fix", "docs", "style", "refactor", "perf", "test", "chore"]

/-- Match one of the eight type alternatives at the head of the message
(in alternation order, as the regex engine tries them), returning the
matched type and the remainder. -/
def splitType (msg : List Char) : Option (String × List Char) :=
  if "feat".data.isPrefixOf msg then some ("feat", msg.drop 4)
  else if "fix".data.isPrefixOf msg then some ("fix", msg.drop 3)
  else if "docs".data.isPrefixOf msg then some ("docs", msg.drop 4)
  else if "style".data.isPrefixOf msg then some ("style", msg.drop 5)
  else if "refactor".data.isPrefixOf msg then some ("refactor", msg.drop 8)
  else if "perf".data.isPrefixOf msg then some ("perf", msg.drop 4)
  else if "test".data.isPrefixOf msg then some ("test", msg.drop 4)
  else if "chore".data.isPrefixOf msg then some ("chore", msg.drop 5)
  else none

/-- `\([^)]*\)` after the opening parenthesis: the characters before the
first `)` (which `[^)]*` cannot cross) and the remainder after it. -/
def takeScope : List Char → Option (List Char × List Char)
  | [] => none
  | c :: cs =>
    if c = ')' then some ([], cs)
    else match takeScope cs with
         | some (s, r) => some (c :: s, r)
         | none => none

/-- `(\([^)]*\))?:` — an optional parenthesised scope (possibly empty)
followed by a colon. `some none` = no scope group, `some (some s)` = scope
`s`; `none` = the regex fails at this point (after backtracking, the empty
group alternative still requires `:` as the very next character). -/
def afterTypeGroup (rest : List Char) : Option (Option (List Char)) :=
  match rest with
  | [] => none
  | c :: cs =>
    if c = ':' then some none
    else if c = '(' then
      match takeScope cs with
      | some (s, r2) =>
        match r2 with
        | c2 :: _ => if c2 = ':' then some (some s) else none
        | [] => none
      | none => none
    else none

/-- `(\(([^)]+)\))?:` — same, but the inner capture must be non-empty
(`filterCommitsForPackage`'s variant). -/
def afterTypeScopeGroup (rest : List Char) : Option (Option (List Char)) :=
  match rest with
  | [] => none
  | c :: cs =>
    if c = ':' then some none
    else if c = '(' then
      match takeScope cs with
      | some (s, r2) =>
        match r2 with
        | c2 :: _ =>
          if c2 = ':' then (if s.isEmpty then none else some (some s)) else none
        | [] => none
      | none => none
    else none

/-- Full match of `groupCommitsByType`'s regex. -/
def matchConvType (msg : List Char) : Option (String × Option (List Char)) :=
  (splitType msg).bind fun tr => (afterTypeGroup tr.2).map fun sc => (tr.1, sc)

/-- Full match of `filterCommitsForPackage`'s regex. -/
def matchConvTypeScope (msg : List Char) : Option (String × Option (List Char)) :=
  (splitType msg).bind fun tr => (afterTypeScopeGroup tr.2).map fun sc => (tr.1, sc)

/-- The type `groupCommitsByType` assigns to a message (`"other"` on
non-match). -/
def commitTypeChars (msg : List Char) : String :=
  ((matchConvType msg).map Prod.fst).getD "other"

def commitType (message : String) : String := commitTypeChars message.data

/-- The scope capture available to `filterCommitsForPackage`
(`conventionalCommitMatch[3]`). -/
def commitScopeChars (msg : List Char) : Option (List Char) :=
  (matchConvTypeScope msg).bind Prod.snd

def commitScope (message : String) : Option (List Char) := commitScopeChars message.data

/-- `groupCommitsByType`: the per-type buckets, queried by type name
(the record object in the source). -/
def groupCommitsByType (commits : List Commit) (t : String) : List Commit :=
  commits.filter (fun c => commitType c.message = t)

/-- Body of the `commits.filter` predicate of `filterCommitsForPackage`
(only reached for scoped package names). -/
def commitRelevant (pkgName : String) (message : String) : Bool :=
  match matchConvTypeScope message.data with
  | some (_, some scope) =>
    scope = pkgName.data || containsCh scope pkgName.data
      || containsCh message.data pkgName.data
  | _ => containsCh message.data pkgName.data

/-- `filterCommitsForPackage(commits, packageInfo)`: unscoped packages keep
every commit; scoped (`@`-prefixed) packages keep the relevant ones. -/
def filterCommitsForPackage (commits : List Commit) (pkgName : String) : List Commit :=
  if !startsWithCh pkgName.data "@".data then commits
  else commits.filter (fun c => commitRelevant pkgName c.message)

/-! ## `githubManager.organizeReleaseNotesForChangelog` (githubManager.ts:995-1070)

The scan keys its `sections` record by the values of `sectionMapping`
(defaulting to `"Changed"`), so the only keys that can ever exist are
`"Added"`, `"Fixed"` and `"Changed"`; the record is represented by three
bullet lists.  The source pushes each section's bullets pre-joined with
`"\n"` into `formattedSections` and finally joins with `"\n"` again; the
embedding keeps the bullets as separate lines (`organizeLines`), which
yields the identical joined string. -/

/-- `sectionMapping[sectionTitle] || "Changed"`. -/
def sectionMapping (title : List Char) : String :=
  if title = "🚀 Features".data then "Added"
  else if title = "🐛 Bug Fixes".data then "Fixed"
  else if title = "⚡ Performance Improvements".data then "Changed"
  else if title = "♻️ Code Refactoring".data then "Changed"
  else if title = "📚 Documentation".data then "Changed"
  else if title = "💄 Styles".data then "Changed"
  else if title = "🧪 Tests".data then "Changed"
  else if title = "🔧 Chores".data then "Changed"
  else if title = "📝 Other Changes".data then "Changed"
  else "Changed"

structure NoteSections where
  added : List (List Char)
  changed : List (List Char)
  fixed : List (List Char)
deriving DecidableEq

def pushBullet (acc : NoteSections) (section_ : String) (b : List Char) : NoteSections :=
  if section_ = "Added" then { acc with added := acc.added ++ [b] }
  else if section_ = "Fixed" then { acc with fixed := acc.fixed ++ [b] }
  else { acc with changed := acc.changed ++ [b] }

/-- The line scan: `###`-prefixed trimmed lines switch the current section
(`trimmedLine.replace("###", "").trim()` drops the first occurrence of
`###`, which is the leading one, hence `drop 3`); `-`-prefixed trimmed
lines are bullets, recorded only when a current section is set
(`if (currentSection)` — the initial `""` is falsy, so bullets before the
first heading are skipped). -/
def scanNotes (cur : String) (acc : NoteSections) : List (List Char) → NoteSections
  | [] => acc
  | line :: rest =>
    let t := trimCh line
    if startsWithCh t "###".data then
      scanNotes (sectionMapping (trimCh (t.drop 3))) acc rest
    else if startsWithCh t "-".data then
      if cur ≠ "" then scanNotes cur (pushBullet acc cur t) rest
      else scanNotes cur acc rest
    else
      scanNotes cur acc rest

/-- The whole-text fallback used when the scan found no sections: keep
lines that are non-blank after trimming and do not start with `#`
(the second `!line.startsWith("##")` conjunct of the source is subsumed),
prefixing `- ` where the raw line does not already start with `-`. -/
def fallbackChanged (notes : List Char) : List (List Char) :=
  ((splitOnCh '\n' notes).filter
      (fun line => !(trimCh line).isEmpty && !startsWithCh line "#".data
        && !startsWithCh line "##".data)).map
    (fun line => if startsWithCh line "-".data then line else "- ".data ++ line)

/-- The `Object.keys(sections).length === 0` fallback step: when the scan
found no sections at all, sweep the whole text into `Changed` (when the
cleaned lines are non-empty). -/
def applyFallback (notes : List Char) (s : NoteSections) : NoteSections :=
  if s.added.isEmpty && s.changed.isEmpty && s.fixed.isEmpty then
    match fallbackChanged notes with
    | [] => s
    | ls => { s with changed := ls }
  else s

def noteSectionsOf (notes : List Char) : NoteSections :=
  applyFallback notes (scanNotes "" ⟨[], [], []⟩ (splitOnCh '\n' notes))

/-- One rendered section block (`### name`, blank, bullets, blank), empty
when the section has no content.  `"Deprecated"`, `"Removed"` and
`"Security"` also appear in the source's `sectionOrder` but can never hold
bullets, so their blocks are always empty. -/
def sectionBlock (name : String) (bs : List (List Char)) : List (List Char) :=
  if bs.isEmpty then [] else ("### ".data ++ name.data) :: [] :: bs ++ [[]]

/-- The `formattedSections` array, bullets flattened to one line per entry. -/
def organizeLines (notes : List Char) : List (List Char) :=
  let s := noteSectionsOf notes
  sectionBlock "Added" s.added ++ sectionBlock "Changed" s.changed
    ++ sectionBlock "Deprecated" [] ++ sectionBlock "Removed" []
    ++ sectionBlock "Fixed" s.fixed ++ sectionBlock "Security" []

/-- `organizeReleaseNotesForChangelog(releaseNotes)`:
`formattedSections.join("\n").trim()`. -/
def organizeReleaseNotesForChangelog (releaseNotes : String) : String :=
  ⟨trimCh (joinCh '\n' (organizeLines releaseNotes.data))⟩

/-! ## `githubManager.generateTagName` and `updateChangelog`
(githubManager.ts:781-789 and 880-989) -/

def generateTagName (packageName version : String) : String :=
  if startsWithCh packageName.data "@".data then packageName ++ "@" ++ version
  else "v" ++ version

/-- The synthesized preamble for a fresh changelog. -/
def changelogPreamble : String :=
  "# Changelog\n\nAll notable changes to this project will be documented in this file.\n\nThe format is based on [Keep a Changelog](https://keepachangelog.com/en/1.0.0/), and this project adheres to [Semantic Versioning](https://semver.org/spec/v2.0.0.html).\n\n"

/-- The new changelog entry (`newEntry` before trimming): dated heading plus
the reorganized release notes. `today` stands for
`new Date().toISOString().split("T")[0]`. -/
def newChangelogEntry (packageName version today releaseNotes : String) : String :=
  let tagName := generateTagName packageName version
  let heading :=
    if startsWithCh packageName.data "@".data then
      "## [" ++ packageName ++ "@" ++ version ++ "](../../releases/tag/" ++ tagName
        ++ ") - " ++ today ++ "\n\n"
    else
      "## [" ++ version ++ "](releases/tag/" ++ tagName ++ ") - " ++ today ++ "\n\n"
  heading ++ organizeReleaseNotesForChangelog releaseNotes ++ "\n\n"

/-- `lines.findIndex((line, index) => index > 0 && line.startsWith("## ") &&
lines[index-1].trim() !== "")`, carrying the previous line. -/
def headerEndIdxAux (prev : List Char) (i : Nat) : List (List Char) → Option Nat
  | [] => none
  | l :: rest =>
    if startsWithCh l "## ".data && !(trimCh prev).isEmpty then some i
    else headerEndIdxAux l (i + 1) rest

def headerEndIdx : List (List Char) → Option Nat
  | [] => none
  | l0 :: rest => headerEndIdxAux l0 1 rest

/-- `lines.findIndex(line => line.startsWith("#")) + 1` (0 when absent,
since `findIndex` yields `-1`). -/
def afterFirstHashIdx (ls : List (List Char)) : Nat :=
  match ls.findIdx? (fun l => startsWithCh l "#".data) with
  | some j => j + 1
  | none => 0

/-- The updated changelog as a list of lines.  The source splices the whole
trimmed entry string as a single array element and joins with `"\n"`; here
the entry is spliced as its lines, which joins to the identical string. -/
def updateChangelogLines (packageName version today releaseNotes existing : String) :
    List (List Char) :=
  let newEntry := newChangelogEntry packageName version today releaseNotes
  let entryLines := splitOnCh '\n' (trimCh newEntry.data)
  if (trimCh existing.data).isEmpty then
    splitOnCh '\n' (changelogPreamble ++ newEntry).data
  else
    let lines := splitOnCh '\n' existing.data
    match headerEndIdx lines with
    | some k => lines.take k ++ entryLines ++ [[]] ++ lines.drop k
    | none =>
      let insertIndex := afterFirstHashIdx lines
      lines.take insertIndex ++ [[]] ++ entryLines ++ [[]] ++ lines.drop insertIndex

/-- The file content written by `updateChangelog`. -/
def updateChangelogContent (packageName version today releaseNotes existing : String) :
    String :=
  ⟨joinCh '\n' (updateChangelogLines packageName version today releaseNotes existing)⟩

/-- A dated-entry heading line (`line.startsWith("## ")`). -/
def isEntryLine (l : List Char) : Bool := startsWithCh l ("## ").data

/-- `ebpAux prev rest`: within `rest`, every `"## "` heading is preceded by a
line whose trim is empty (the predecessor of the first element is `prev`). -/
def ebpAux (prev : List Char) : List (List Char) → Bool
  | [] => true
  | cur :: rest => (!(isEntryLine cur) || (trimCh prev).isEmpty) && ebpAux cur rest

/-- The layout `updateChangelog` itself generates: every dated-entry heading
(after line 0) directly follows a blank line. -/
def entriesBlankPreceded : List (List Char) → Bool
  | [] => true
  | l0 :: rest => ebpAux l0 rest

/-! ## `updatePackageVersion` (githubManager.ts:853-872, npmPublisher.ts:1338-1363)

Both copies read the manifest, `JSON.parse` it, assign
`packageJson.version = newVersion`, and write back
`JSON.stringify(packageJson, null, 2)`.  JSON values are modelled by `Jv`;
a parsed object is a list of fields in property order (JavaScript preserves
insertion order for the non-integer-like keys of a manifest, and
`JSON.parse` followed by `JSON.stringify` round-trips a value, so reading
the written file back is modelled as the identity on the `Jv` value). -/

inductive Jv where
  | null
  | bool (b : Bool)
  | num (n : Int)
  | str (s : String)
  | arr (elems : List Jv)
  | obj (fields : List (String × Jv))

/-- JS property assignment `o[key] = v`: overwrite in place when the key
exists (keeping its position), append otherwise. -/
def setField (key : String) (v : Jv) : List (String × Jv) → List (String × Jv)
  | [] => [(key, v)]
  | (k, w) :: rest =>
    if k = key then (k, v) :: rest else (k, w) :: setField key v rest

/-- Property read `o[key]` (first match). -/
def getField (key : String) : List (String × Jv) → Option Jv
  | [] => none
  | (k, w) :: rest => if k = key then some w else getField key rest

/-- `packageJson.version = newVersion` on a parsed manifest object. -/
def updatePackageVersion (manifest : List (String × Jv)) (newVersion : String) :
    List (String × Jv) :=
  setField "version" (Jv.str newVersion) manifest

/-- Minimal model of JSON string escaping (quote, backslash and the common
control characters; other characters are emitted unchanged). -/
def escapeJsonChar (c : Char) : List Char :=
  if c = '"' then ['\\', '"']
  else if c = '\\' then ['\\', '\\']
  else if c = '\n' then ['\\', 'n']
  else if c = '\t' then ['\\', 't']
  else if c = '\r' then ['\\', 'r']
  else [c]

def quoteJsonString (s : String) : List Char :=
  '"' :: (s.data.flatMap escapeJsonChar) ++ ['"']

def indentChars (n : Nat) : List Char := List.replicate n ' '

mutual

/-- `JSON.stringify(v, null, 2)` at nesting depth `ind` (model). -/
def stringifyJv (ind : Nat) : Jv → List Char
  | .null => "null".data
  | .bool b => if b then "true".data else "false".data
  | .num n => (toString n).data
  | .str s => quoteJsonString s
  | .arr es => match es with
    | [] => "[]".data
    | _ => '[' :: '\n' ::
        joinCh '\n' (stringifyArrElems (ind + 2) es) ++
        '\n' :: indentChars ind ++ [']']
  | .obj fs => match fs with
    | [] => "{}".data
    | _ => '{' :: '\n' ::
        joinCh '\n' (stringifyObjFields (ind + 2) fs) ++
        '\n' :: indentChars ind ++ ['}']

def stringifyArrElems (ind : Nat) : List Jv → List (List Char)
  | [] => []
  | [e] => [indentChars ind ++ stringifyJv ind e]
  | e :: rest =>
    (indentChars ind ++ stringifyJv ind e ++ [',']) :: stringifyArrElems ind rest

def stringifyObjFields (ind : Nat) : List (String × Jv) → List (List Char)
  | [] => []
  | [(k, v)] => [indentChars ind ++ quoteJsonString k ++ ':' :: ' ' :: stringifyJv ind v]
  | (k, v) :: rest =>
    (indentChars ind ++ quoteJsonString k ++ ':' :: ' ' :: stringifyJv ind v ++ [','])
      :: stringifyObjFields ind rest

end

/-- The file content written back for a manifest object. -/
def manifestContent (manifest : List (String × Jv)) : String :=
  ⟨stringifyJv 0 (Jv.obj manifest)⟩

/-! ## `githubManager.generateReleaseNotes` (githubManager.ts:580-641) -/

/-- `getTypeLabel` (githubManager.ts:757-771). -/
def getTypeLabel (t : String) : String :=
  if t = "feat" then "🚀 Features"
  else if t = "fix" then "🐛 Bug Fixes"
  else if t = "perf" then "⚡ Performance Improvements"
  else if t = "refactor" then "♻️ Code Refactoring"
  else if t = "docs" then "📚 Documentation"
  else if t = "style" then "💄 Styles"
  else if t = "test" then "🧪 Tests"
  else if t = "chore" then "🔧 Chores"
  else if t = "other" then "📝 Other Changes"
  else "📝 Other Changes"

def typeOrder : List String :=
  ["feat", "fix", "perf", "refactor", "docs", "style", "test", "chore", "other"]

/-- JS `\s` approximated by `Char.isWhitespace`. -/
def dropJsWs (s : List Char) : List Char := s.dropWhile Char.isWhitespace

/-- Lazy scope scan for `message.replace(/^(feat|...)(\(.+?\))?:\s*/, "")`:
after the opening parenthesis, `.+?` consumes at least one character and,
backtracking outward, stops at the first `)` that is immediately followed
by `:`; returns the remainder after that colon. -/
def lazyScopeScan (consumed : Bool) : List Char → Option (List Char)
  | ')' :: ':' :: r => if consumed then some r else lazyScopeScan true (':' :: r)
  | _ :: cs => lazyScopeScan true cs
  | [] => none

/-- The `replace` of `generateReleaseNotes`: strip a leading
`type(scope):` / `type:` prefix (plus trailing whitespace) when the lazy
regex matches, otherwise return the line unchanged. -/
def cleanMessageChars (msg : List Char) : List Char :=
  match splitType msg with
  | none => msg
  | some (_, rest) =>
    match rest with
    | '(' :: inner =>
      match lazyScopeScan false inner with
      | some r => dropJsWs r
      | none => msg
    | ':' :: r => dropJsWs r
    | _ => msg

/-- One `### label` section of the release notes for commit-type `t`
(empty when the group is empty). -/
def releaseNotesSection (relevant : List Commit) (t : String) : List (List Char) :=
  let group := groupCommitsByType relevant t
  if group.isEmpty then []
  else ("\n### ".data ++ (getTypeLabel t).data) :: [] ::
    group.map (fun c =>
      "- ".data ++ cleanMessageChars ((splitOnCh '\n' c.message.data).headD []))
    ++ [[]]

/-- `generateReleaseNotes(packageInfo, version)` (the git query for the
commit list is passed in as `commits`). -/
def generateReleaseNotes (commits : List Commit) (pkgName version : String) : String :=
  if commits.isEmpty then "Release " ++ version
  else
    let relevant := filterCommitsForPackage commits pkgName
    if relevant.isEmpty then
      "Release " ++ version ++ "\n\nNo changes specific to this package since last release."
    else
      ⟨joinCh '\n' ("\n## Changes".data :: (typeOrder.flatMap (releaseNotesSection relevant)))⟩

/-- `hasChangesForPackage` (githubManager.ts:648-674). -/
def hasChangesForPackage (commits : List Commit) (pkgName : String) : Bool :=
  if commits.isEmpty then false
  else !(filterCommitsForPackage commits pkgName).isEmpty

/-! ## `githubManager.createIndependentRelease` (githubManager.ts:215-313)

User prompts and external command outcomes are supplied by a `RelEnv`;
the function returns the trace of file mutations, git operations and
user-facing messages, in order.  `updatePackageVersion` and
`updateChangelog` are modelled on their success path (`updateChangelog`
swallows its own errors and warns; a failing manifest write would throw
to `createRelease`'s catch); `commitVersionChanges`
(githubManager.ts:796-846) catches a failing `gitManager.commit`, shows a
warning, and lets the release continue, while `createTag` / `pushTag` /
`octokit.createRelease` throw on failure, ending the trace. -/

structure PkgInfo where
  name : String
  version : String
  path : String
  isPrivate : Bool
deriving DecidableEq

structure RelEnv where
  commits : List Commit
  versionChoice : Option String
  noChangesAnswer : Option String
  prereleaseAnswer : Option String
  commitOk : Bool
  tagOk : Bool
  pushOk : Bool
  hostedOk : Bool
  changelogExisting : String
  today : String

inductive RelEffect where
  | msgNoChangesPrompt
  | msgReleaseCancelledNoChanges
  | writeManifest (version : String)
  | writeChangelog (content : String)
  | commitAttempt
  | msgCommitFailedWarn
  | createTagAttempt (tag : String)
  | pushTagAttempt (tag : String)
  | hostedReleaseAttempt (tag : String) (prerelease : Bool)
  | msgReleaseCreated
deriving DecidableEq

def createIndependentRelease (e : RelEnv) (pkg : PkgInfo) : List RelEffect :=
  match e.versionChoice with
  | none => []
  | some newVersion =>
    let hasChanges := hasChangesForPackage e.commits pkg.name
    let (fx0, proceed) :=
      if !hasChanges then
        if e.noChangesAnswer = some "Yes, Continue" then
          ([RelEffect.msgNoChangesPrompt], true)
        else ([RelEffect.msgNoChangesPrompt, RelEffect.msgReleaseCancelledNoChanges], false)
      else ([], true)
    if !proceed then fx0
    else
      let releaseNotes := generateReleaseNotes e.commits pkg.name newVersion
      match e.prereleaseAnswer with
      | none => fx0
      | some pre =>
        let tagName := generateTagName pkg.name newVersion
        let changelogContent :=
          updateChangelogContent pkg.name newVersion e.today releaseNotes e.changelogExisting
        fx0 ++ [RelEffect.writeManifest newVersion, RelEffect.writeChangelog changelogContent,
            RelEffect.commitAttempt]
          ++ (if e.commitOk then [] else [RelEffect.msgCommitFailedWarn])
          ++ [RelEffect.createTagAttempt tagName]
          ++ (if e.tagOk then
                [RelEffect.pushTagAttempt tagName]
                ++ (if e.pushOk then
                      [RelEffect.hostedReleaseAttempt tagName (pre = "Yes")]
                      ++ (if e.hostedOk then [RelEffect.msgReleaseCreated] else [])
                    else [])
              else [])

/-- Effects that touch the disk or the repository (versus pure display). -/
def isMutationEffect : RelEffect → Bool
  | .writeManifest _ => true
  | .writeChangelog _ => true
  | .commitAttempt => true
  | .createTagAttempt _ => true
  | .pushTagAttempt _ => true
  | .hostedReleaseAttempt _ _ => true
  | _ => false

/-! ## `npmPublisher.publishPackage` / `executePublish`
(npmPublisher.ts:449-570 and 1098-1262)

User answers and external command results are supplied by a `PubEnv`.
`runPrePublishChecks` (npmPublisher.ts:804-856), an independent gate of
build / test / file checks with its own retry dialogs, is abstracted to its
boolean outcome `preChecksPass`; its commands are `npm run build` /
`npm test`, never a publish.  Every `vscode.window.show*Message` call is
recorded as a trace effect (prompts included), tagged by call site. -/

structure PubEnv where
  envVars : EnvVars
  localNpmrc : NpmrcFile
  globalNpmrc : NpmrcFile
  whoami : Nat → CmdResult
  privateAnswer : Option String
  loginAction : Option String
  authOption : Option String
  tagPick : Option String
  customTag : Option String
  accessPick : Option String
  preChecksPass : Bool
  confirmAnswer : Option String
  otpAnswer : Option String
  publishResult : CmdResult
  timeoutAnswer : Option String
  publishRetryResult : CmdResult
  eotpAnswer : Option String

inductive PubEffect where
  | msgPrivatePrompt
  | msgAuthDetected
  | msgAuthRequiredWarn
  | msgNeedLoginPrompt
  | msgAuthFailed
  | msgLoginMenu
  | msgManualPublishInstructions
  | msgInteractiveRunning
  | msgOtpWarningPrompt
  | msgPublishCancelledByUser
  | msgTimeoutPrompt
  | msgStillTimedOut
  | msgPublishCancelled
  | msgOtpRequiredPrompt
  | msgOtpCancelledInfo
  | msgSuccessBanner (name version : String)
  | msgSuccessPublished (name version : String)
  | msgFailedPublish
  | openTerminal (name cwd : String)
  | termSend (cmd : String)
  | runNpm (cmd : String)
deriving DecidableEq

/-- Ways `executePublish` can throw (its `throw new Error(...)` sites). -/
inductive PubThrow where
  | eneedauth
  | e403
  | enotfound
  | generic
  | unknown
deriving DecidableEq

/-- `getPublishOptions` (npmPublisher.ts:742-796): `null` when any pick or
the custom-tag input box is cancelled (an empty custom tag is falsy). -/
def getPublishOptions (e : PubEnv) : Option (String × String) :=
  match e.tagPick with
  | none => none
  | some tagLabel =>
    let selectedTag :=
      if tagLabel = "custom" then
        match e.customTag with
        | none => none
        | some t => if t.data.isEmpty then none else some t
      else some tagLabel
    match selectedTag with
    | none => none
    | some tag =>
      match e.accessPick with
      | none => none
      | some access => some (tag, access)

/-- The publish command assembled by both `publishPackage` (manual branch)
and `executePublish`. -/
def buildPublishCommand (tag access : String) : String :=
  let c := "npm publish"
  let c := if tag ≠ "latest" then c ++ " --tag " ++ tag else c
  if access = "public" then c ++ " --access public" else c

/-- `checkNpmLogin` with its trace: the auth-detected info message, the
`npm whoami` executions (consumed from stream index `start`), and the
authentication warning on failure.  Returns the trace, the boolean
decision, and the next stream index. -/
def checkNpmLoginRun (e : PubEnv) (start : Nat) : List PubEffect × Bool × Nat :=
  let auth := checkNpmAuth e.envVars e.localNpmrc e.globalNpmrc
  let warnFx := fun (r : CmdResult) =>
    if jsTruthy r.error || containsCh r.output.data "ENEEDAUTH".data then
      [PubEffect.msgAuthRequiredWarn]
    else []
  if auth.hasToken then
    let r1 := e.whoami start
    if okWhoami r1 then
      ([PubEffect.msgAuthDetected, PubEffect.runNpm "npm whoami"], true, start + 1)
    else
      let r2 := e.whoami (start + 1)
      let fx := [PubEffect.msgAuthDetected, PubEffect.runNpm "npm whoami",
        PubEffect.runNpm "npm whoami"]
      if okWhoami r2 then (fx, true, start + 2)
      else (fx ++ warnFx r2, false, start + 2)
  else
    let r2 := e.whoami start
    if okWhoami r2 then ([PubEffect.runNpm "npm whoami"], true, start + 1)
    else ([PubEffect.runNpm "npm whoami"] ++ warnFx r2, false, start + 1)

/-- `npmLogin` (npmPublisher.ts:639-736): the interactive-login choice runs
`npm login` in a terminal (`executeInteractiveNpmCommand`); the two
instruction choices only display messages. -/
def npmLogin (e : PubEnv) (path : String) : List PubEffect :=
  match e.authOption with
  | none => []
  | some l =>
    if l = "Interactive Login" then
      [PubEffect.openTerminal "NPM: npm login" path, PubEffect.termSend "npm login",
        PubEffect.msgInteractiveRunning]
    else [PubEffect.msgLoginMenu]

/-- `executePublish(packageInfo, options)`: trace plus `some thrown` when the
function throws.  The upfront OTP warning offers auto / terminal / cancel;
a dismissed dialog (`none`) falls through to the automatic attempt, as in
the source. -/
def executePublish (e : PubEnv) (pkg : PkgInfo) (tag access : String) :
    List PubEffect × Option PubThrow :=
  let publishCommand := buildPublishCommand tag access
  let fx0 := [PubEffect.msgOtpWarningPrompt]
  if e.otpAnswer = some "Cancel" then
    (fx0 ++ [PubEffect.msgPublishCancelledByUser], none)
  else if e.otpAnswer = some "Use Terminal for Manual Publish" then
    (fx0 ++ [PubEffect.openTerminal ("NPM Publish - " ++ pkg.name) pkg.path,
      PubEffect.termSend publishCommand], none)
  else
    let r := e.publishResult
    let fx1 := fx0 ++ [PubEffect.runNpm publishCommand]
    if !r.success then
      if r.timedOut then
        let fx2 := fx1 ++ [PubEffect.msgTimeoutPrompt]
        if e.timeoutAnswer = some "Retry with Extended Timeout" then
          let r2 := e.publishRetryResult
          let fx3 := fx2 ++ [PubEffect.runNpm publishCommand]
          if r2.timedOut then (fx3 ++ [PubEffect.msgStillTimedOut], none)
          else if !r2.success && jsTruthy r2.error then (fx3, some .generic)
          else (fx3 ++ [PubEffect.msgSuccessBanner pkg.name pkg.version], none)
        else if e.timeoutAnswer = some "Use Terminal for Manual Publish" then
          (fx2 ++ [PubEffect.openTerminal ("NPM Publish - " ++ pkg.name) pkg.path,
            PubEffect.termSend publishCommand], none)
        else
          (fx2 ++ [PubEffect.msgPublishCancelled], none)
      else if jsTruthy r.error then
        let err := (r.error.getD "").data
        if containsCh err "EOTP".data then
          let fx2 := fx1 ++ [PubEffect.msgOtpRequiredPrompt]
          if e.eotpAnswer = some "Open Terminal for Manual Publish" then
            (fx2 ++ [PubEffect.openTerminal ("NPM Publish with OTP - " ++ pkg.name) pkg.path,
              PubEffect.termSend publishCommand], none)
          else (fx2 ++ [PubEffect.msgOtpCancelledInfo], none)
        else if containsCh err "ENEEDAUTH".data then (fx1, some .eneedauth)
        else if containsCh err "E403".data then (fx1, some .e403)
        else if containsCh err "ENOTFOUND".data then (fx1, some .enotfound)
        else (fx1, some .generic)
      else (fx1, some .unknown)
    else
      (fx1 ++ [PubEffect.msgSuccessBanner pkg.name pkg.version], none)

/-- Tail of `publishPackage` after authentication has been resolved:
publish options, pre-publish checks, final confirmation, `executePublish`,
and — when `executePublish` returns without throwing — the
`Successfully published name@version!` information message; a throw lands
in `publishPackage`'s catch, which shows the failure message. -/
def publishPackageMain (e : PubEnv) (pkg : PkgInfo) (fx : List PubEffect) :
    List PubEffect :=
  match getPublishOptions e with
  | none => fx
  | some (tag, access) =>
    if !e.preChecksPass then fx
    else if e.confirmAnswer = some "Yes, Publish" then
      let r := executePublish e pkg tag access
      match r.2 with
      | none => fx ++ r.1 ++ [PubEffect.msgSuccessPublished pkg.name pkg.version]
      | some _ => fx ++ r.1 ++ [PubEffect.msgFailedPublish]
    else fx

/-- The part of `publishPackage` following the private-package gate:
`checkNpmLogin`, the three-way unauthenticated prompt (login / manual
terminal / cancel), and the continuation into `publishPackageMain`. -/
def publishPackageAuth (e : PubEnv) (pkg : PkgInfo) (fxP : List PubEffect) :
    List PubEffect :=
  let r := checkNpmLoginRun e 0
  let fx := fxP ++ r.1
  if r.2.1 then publishPackageMain e pkg fx
  else
    let fx := fx ++ [PubEffect.msgNeedLoginPrompt]
    if e.loginAction = some "Login to npm" then
      let fxLogin := npmLogin e pkg.path
      let r2 := checkNpmLoginRun e r.2.2
      let fx := fx ++ fxLogin ++ r2.1
      if !r2.2.1 then fx ++ [PubEffect.msgAuthFailed]
      else publishPackageMain e pkg fx
    else if e.loginAction = some "Open Terminal for Manual Publish" then
      match getPublishOptions e with
      | none => fx
      | some (tag, access) =>
        fx ++ [PubEffect.openTerminal ("NPM Publish - " ++ pkg.name) pkg.path,
          PubEffect.termSend (buildPublishCommand tag access),
          PubEffect.msgManualPublishInstructions]
    else fx

/-- `publishPackage(packageInfo)`: the full single-package publish flow. -/
def publishPackage (e : PubEnv) (pkg : PkgInfo) : List PubEffect :=
  let fxP : List PubEffect :=
    if pkg.isPrivate then [PubEffect.msgPrivatePrompt] else []
  let contP := if pkg.isPrivate then e.privateAnswer == some "Yes" else true
  if !contP then fxP
  else publishPackageAuth e pkg fxP

/-- An automatic (non-terminal) publish execution: a spawned command whose
text starts with `npm publish`. -/
def isAutoPublishEffect : PubEffect → Bool
  | .runNpm cmd => startsWithCh cmd.data "npm publish".data
  | _ => false

/-- A user-facing message claiming the publish succeeded: the banner inside
`executePublish` or the closing message of `publishPackage`. -/
def isSuccessMessage : PubEffect → Bool
  | .msgSuccessBanner _ _ => true
  | .msgSuccessPublished _ _ => true
  | _ => false

/-- A terminal opened with the publish command sent into it. -/
def isManualPublishTerminal : PubEffect → Bool
  | .openTerminal _ _ => true
  | _ => false

/-! ## Propositional vocabulary and spec-side predicates used by the theorems -/

/-- The pattern `pat` occurs somewhere in `l` (the relation computed by
JS `includes` / `containsCh`). -/
def Occurs (pat l : List Char) : Prop :=
  ∃ pre post, l = pre ++ pat ++ post

/-- The pattern `pat` is a prefix of `l` (JS `startsWith`). -/
def BeginsWith (pat l : List Char) : Prop :=
  ∃ rest, l = pat ++ rest

/-- A trimmed line that the `containsAuthToken` scan does not skip. -/
def ScannedLine (l : List Char) : Prop :=
  l ≠ [] ∧ ¬ BeginsWith "#".data l ∧ ¬ BeginsWith ";".data l

/-- Stated from the spec for comparison with `containsAuthToken` (§4.6):
a credential-bearing directive line is a registry-scoped or global
auth-token assignment, a legacy combined auth string, or an explicit
username/password line. -/
def specCredentialLine (line : List Char) : Bool :=
  containsCh line ":_authToken=".data || startsWithCh line "_authToken=".data
    || containsCh line ":_auth=".data || startsWithCh line "_auth=".data
    || startsWithCh line "username=".data || startsWithCh line "_password=".data

/-- Stated from the spec: content carries a credential when some trimmed
non-comment line is a credential-bearing directive. -/
def specHasCredential (content : String) : Bool :=
  ((splitOnCh '\n' content.data).map trimCh).any (fun l =>
    !(l.isEmpty || startsWithCh l "#".data || startsWithCh l ";".data)
      && specCredentialLine l)

/-- A `.npmrc` content whose only lines are legacy username/password
credentials: a spec credential that `containsAuthToken` does not detect. -/
def userPassNpmrc : String := "username=alice\n_password=aGVsbG8="

/-- The conventional-commit shapes accepted by the embedded regexes:
`type:` or `type(scope):` at the start of the message, with `type` one of
the eight alternatives and the scope free of `)`. -/
def ConvDecomp (msg : List Char) : Prop :=
  ∃ t ∈ knownCommitTypes, ∃ r : List Char,
    msg = t.data ++ ':' :: r ∨
    ∃ s : List Char, ')' ∉ s ∧ msg = t.data ++ '(' :: (s ++ ')' :: ':' :: r)

/-- Canonical changelog headings in Keep-a-Changelog order. -/
def canonicalHeadings : List (List Char) :=
  ["### Added".data, "### Changed".data, "### Deprecated".data,
   "### Removed".data, "### Fixed".data, "### Security".data]

/-- All bullets collected in the scan sections start with `-`. -/
def SectionsBullets (acc : NoteSections) : Prop :=
  ∀ b, (b ∈ acc.added ∨ b ∈ acc.changed ∨ b ∈ acc.fixed) →
    startsWithCh b "-".data = true

/-! ## Concrete instances used by witnesses and counterexamples -/

/-- A successful `npm whoami` result. -/
def whoamiOk : CmdResult := ⟨true, "someuser\n", none, false⟩

/-- A failing `npm whoami` result (`ENEEDAUTH`). -/
def whoamiFail : CmdResult := ⟨false, "", some "npm ERR! code ENEEDAUTH", false⟩

/-- Environment variables carrying `NPM_TOKEN`. -/
def envVarsTok : EnvVars := ⟨some "tok", none, none, none⟩

/-- Environment variables with no authentication variable set. -/
def envVarsNone : EnvVars := ⟨none, none, none, none⟩

/-- Publish environment for the terminal-path scenario: authenticated
(token + `whoami` ok), default options, checks pass, publish confirmed,
and `Use Terminal for Manual Publish` chosen at the OTP warning. -/
def pubEnvTerminal : PubEnv :=
  { envVars := envVarsTok
    localNpmrc := .missing
    globalNpmrc := .missing
    whoami := fun _ => whoamiOk
    privateAnswer := none
    loginAction := none
    authOption := none
    tagPick := some "latest"
    customTag := none
    accessPick := some "restricted"
    preChecksPass := true
    confirmAnswer := some "Yes, Publish"
    otpAnswer := some "Use Terminal for Manual Publish"
    publishResult := whoamiOk
    timeoutAnswer := none
    publishRetryResult := whoamiOk
    eotpAnswer := none }

/-- Same environment but continuing with the automatic publish. -/
def pubEnvAuto : PubEnv :=
  { pubEnvTerminal with
    otpAnswer := some "Continue with Auto Publish"
    publishResult := ⟨true, "+ left-pad@1.0.0\n", none, false⟩ }

/-- Publish environment where the automatic attempt fails with `EOTP` and
the operator opens the terminal. -/
def pubEnvEotp : PubEnv :=
  { pubEnvTerminal with
    otpAnswer := some "Continue with Auto Publish"
    publishResult := ⟨false, "", some "npm ERR! code EOTP", false⟩
    eotpAnswer := some "Open Terminal for Manual Publish" }

def pkgLeftPad : PkgInfo := ⟨"left-pad", "1.0.0", "/ws/left-pad", false⟩

/-- Release environment with one relevant commit, a chosen version, a
non-prerelease answer, and a failing commit step (tag / push / hosted
release succeed). -/
def relEnvCommitFails : RelEnv :=
  { commits := [⟨"abc123", "feat: add X", "2025-01-01"⟩]
    versionChoice := some "1.1.0"
    noChangesAnswer := none
    prereleaseAnswer := some "No"
    commitOk := false
    tagOk := true
    pushOk := true
    hostedOk := true
    changelogExisting := ""
    today := "2025-01-02" }

/-- Release environment cancelled at the prerelease prompt. -/
def relEnvCancelPre : RelEnv :=
  { relEnvCommitFails with prereleaseAnswer := none, commitOk := true }

/-- First changelog write for the C7 scenario (unscoped package `pkg`,
version 1.0.0, notes `- x`, empty file). -/
def c7FirstContent : String :=
  updateChangelogContent "pkg" "1.0.0" "2025-01-01" "- x" ""

/-- Second changelog write on top of `c7FirstContent`. -/
def c7SecondLines : List (List Char) :=
  updateChangelogLines "pkg" "1.1.0" "2025-01-02" "- y" c7FirstContent

/-- A changelog in the standard generated layout: the dated heading follows
a blank line. -/
def c7Std : String :=
  "# Changelog\n\n## [0.1.0](releases/tag/v0.1.0) - 2020-01-01\n\n- old"

/-- A changelog whose first dated heading directly follows a non-blank
line, so the `headerEndIndex` scan finds it. -/
def c7Tight : String :=
  "# Changelog\nintro\n## [0.1.0](releases/tag/v0.1.0) - 2020-01-01\n- old"

/-- Example manifest object for the C8 witness. -/
def manifestExample : List (String × Jv) :=
  [("name", Jv.str "left-pad"), ("version", Jv.str "1.0.0"),
   ("private", Jv.bool false),
   ("scripts", Jv.obj [("build", Jv.str "tsc"), ("test", Jv.str "vitest run")]),
   ("keywords", Jv.arr [Jv.str "pad", Jv.str "left"])]

/-! ## Helper lemmas -/

theorem startsWithCh_iff {l pat : List Char} :
    startsWithCh l pat = true ↔ BeginsWith pat l := by
  rw [startsWithCh, List.isPrefixOf_iff_prefix]
  constructor
  · rintro ⟨t, rfl⟩
    exact ⟨t, rfl⟩
  · rintro ⟨t, rfl⟩
    exact ⟨t, rfl⟩

theorem containsCh_iff {l pat : List Char} :
    containsCh l pat = true ↔ Occurs pat l := by
  induction l with
  | nil =>
    simp only [containsCh, Occurs, List.isEmpty_iff]
    constructor
    · intro h
      exact ⟨[], [], by simp [h]⟩
    · rintro ⟨pre, post, h⟩
      rcases List.append_eq_nil.mp h.symm with ⟨h1, -⟩
      exact (List.append_eq_nil.mp h1).2
  | cons c tl ih =>
    simp only [containsCh, Bool.or_eq_true, List.isPrefixOf_iff_prefix, ih]
    constructor
    · rintro (⟨t, ht⟩ | ⟨pre, post, hp⟩)
      · exact ⟨[], t, by simpa using ht.symm⟩
      · exact ⟨c :: pre, post, by simp [hp]⟩
    · rintro ⟨pre, post, hp⟩
      match pre, hp with
      | [], hp => exact Or.inl ⟨post, by simpa using hp.symm⟩
      | p :: pre, hp =>
        refine Or.inr ⟨pre, post, ?_⟩
        injection hp with h1 h2

/-- The per-line check of `containsAuthToken`, in propositional form. -/
theorem authTokenLine_iff (l c : List Char) :
    authTokenLine l c = true ↔
      (ScannedLine l ∧
        (Occurs ":_authToken=".data l ∨ Occurs ":_auth=".data l
          ∨ BeginsWith "_authToken=".data l ∨ BeginsWith "_auth=".data l
          ∨ BeginsWith "authToken=".data l
          ∨ Occurs "//registry.npmjs.org/:_authToken=".data l
          ∨ (BeginsWith "always-auth=true".data l ∧ Occurs "_auth".data c))) := by
  simp only [authTokenLine, ScannedLine, Bool.and_eq_true, Bool.not_eq_true',
    Bool.or_eq_false_iff, Bool.or_eq_true, Bool.eq_false_iff, ne_eq,
    List.isEmpty_iff, startsWithCh_iff, containsCh_iff]
  tauto

/-! ## C9 — `containsAuthToken` versus the spec's credential directives -/

/-- C9 counterexample: a file holding only explicit username/password
lines is a credential-bearing configuration per the spec's directive list,
yet `containsAuthToken` rejects it, refuting the claimed equivalence. -/
theorem claim_C9_counterexample :
    containsAuthToken userPassNpmrc = false ∧ specHasCredential userPassNpmrc = true := by
  constructor <;> decide

/-- C9 (amended): `containsAuthToken` accepts exactly the contents in which
some trimmed, non-comment line contains a registry-scoped auth-token or
legacy auth assignment, starts with a global `_authToken=` / `_auth=` /
`authToken=` assignment, contains the npmjs-registry token line, or starts
with `always-auth=true` while `_auth` occurs anywhere in the content;
explicit username/password lines are not detected.  The two concrete
behaviours demanded by the spec's test vectors hold. -/
theorem claim_C9 :
    (∀ content : String,
      containsAuthToken content = true ↔
        ∃ l ∈ (splitOnCh '\n' content.data).map trimCh, ScannedLine l ∧
          (Occurs ":_authToken=".data l ∨ Occurs ":_auth=".data l
            ∨ BeginsWith "_authToken=".data l ∨ BeginsWith "_auth=".data l
            ∨ BeginsWith "authToken=".data l
            ∨ Occurs "//registry.npmjs.org/:_authToken=".data l
            ∨ (BeginsWith "always-auth=true".data l ∧ Occurs "_auth".data content.data)))
    ∧ containsAuthToken "auto-install-peers = true" = false
    ∧ containsAuthToken "//registry.example/:_authToken=abc123" = true := by
  refine ⟨fun content => ?_, by decide, by decide⟩
  unfold containsAuthToken
  rw [List.any_eq_true]
  exact exists_congr fun l => and_congr_right fun _ => authTokenLine_iff l content.data

/-! ## C1 — authentication state and the downstream decision -/

/-- C1: `hasToken` is reported exactly when an authentication environment
variable is truthy or a readable `.npmrc` contains a credential line per
`containsAuthToken` — the mere existence of a config file never
contributes — and the `checkNpmLogin` decision is a function of `hasToken`
(and the `npm whoami` results) alone, never of `hasNpmrc`. -/
theorem claim_C1 (e : EnvVars) (l g : NpmrcFile) :
    ((checkNpmAuth e l g).hasToken = true ↔
      envHasAuthVar e = true ∨ npmrcHasCred l = true ∨ npmrcHasCred g = true)
    ∧ (∀ (e2 : EnvVars) (l2 g2 : NpmrcFile) (whoami : Nat → CmdResult) (start : Nat),
        (checkNpmAuth e l g).hasToken = (checkNpmAuth e2 l2 g2).hasToken →
        checkNpmLogin e l g whoami start = checkNpmLogin e2 l2 g2 whoami start) := by
  constructor
  · simp [checkNpmAuth, Bool.or_assoc]
  · intro e2 l2 g2 whoami start h
    unfold checkNpmLogin
    rw [h]

/-- C1 witness: instantiated with a token-bearing environment against an
environment whose (tokenless) local `.npmrc` merely exists. -/
theorem claim_C1_witness :
    ((checkNpmAuth envVarsTok .missing .missing).hasToken = true ↔
      envHasAuthVar envVarsTok = true ∨ npmrcHasCred .missing = true
        ∨ npmrcHasCred .missing = true)
    ∧ checkNpmLogin envVarsTok .missing .missing (fun _ => whoamiOk) 0 =
        checkNpmLogin envVarsTok (.readable "auto-install-peers = true") .missing
          (fun _ => whoamiOk) 0 :=
  ⟨(claim_C1 envVarsTok .missing .missing).1,
    (claim_C1 envVarsTok .missing .missing).2 envVarsTok
      (.readable "auto-install-peers = true") .missing (fun _ => whoamiOk) 0 (by decide)⟩

/-! ## C5 — candidate next versions -/

/-- C5: concrete evaluation of `suggestNextVersions`.  A parseable version
yields the four increments; an unparseable version yields the empty list —
not the claimed `["1.0.0"]` — because `semver.inc` returns `null` instead
of throwing, leaving the `catch`-block fallback unreachable. -/
theorem claim_C5 :
    suggestNextVersions "1.2.3" = ["1.2.4", "1.3.0", "2.0.0", "1.2.4-beta.0"]
    ∧ suggestNextVersions "not-a-version" = [] := by
  constructor <;> decide

/-! ## C8 — manifest version mutation -/

theorem getField_setField_self (key : String) (v : Jv) (fs : List (String × Jv)) :
    getField key (setField key v fs) = some v := by
  induction fs with
  | nil => simp [setField, getField]
  | cons f rest ih =>
    obtain ⟨k, w⟩ := f
    by_cases h : k = key
    · simp [setField, getField, h]
    · simp [setField, getField, h, ih]

theorem getField_setField_other {k key : String} (h : k ≠ key) (v : Jv)
    (fs : List (String × Jv)) :
    getField k (setField key v fs) = getField k fs := by
  induction fs with
  | nil => simp [setField, getField, h.symm]
  | cons f rest ih =>
    obtain ⟨k2, w⟩ := f
    by_cases h2 : k2 = key
    · subst h2
      simp [setField, getField, h.symm]
    · simp [setField, getField, h2, ih]

theorem map_fst_setField (key : String) (v : Jv) (fs : List (String × Jv)) :
    (setField key v fs).map Prod.fst =
      (if key ∈ fs.map Prod.fst then fs.map Prod.fst else fs.map Prod.fst ++ [key]) := by
  induction fs with
  | nil => simp [setField]
  | cons f rest ih =>
    obtain ⟨k, w⟩ := f
    by_cases h : k = key
    · simp [setField, h]
    · have h2 : key ≠ k := fun hk => h hk.symm
      by_cases hm : key ∈ rest.map Prod.fst <;>
        simp [setField, h, hm, ih, h2]

theorem setField_setField (key : String) (v : Jv) (fs : List (String × Jv)) :
    setField key v (setField key v fs) = setField key v fs := by
  induction fs with
  | nil => simp [setField]
  | cons f rest ih =>
    obtain ⟨k, w⟩ := f
    by_cases h : k = key
    · simp [setField, h]
    · simp [setField, h, ih]

/-- C8: setting the version field and re-reading the written manifest gives
the new version; every other field is unchanged; the key order is
preserved (with `version` appended when the manifest lacked it); and a
second application with the same version writes byte-identical content. -/
theorem claim_C8 (manifest : List (String × Jv)) (v : String) :
    getField "version" (updatePackageVersion manifest v) = some (Jv.str v)
    ∧ (∀ k, k ≠ "version" →
        getField k (updatePackageVersion manifest v) = getField k manifest)
    ∧ (updatePackageVersion manifest v).map Prod.fst =
        (if "version" ∈ manifest.map Prod.fst then manifest.map Prod.fst
         else manifest.map Prod.fst ++ ["version"])
    ∧ manifestContent (updatePackageVersion (updatePackageVersion manifest v) v) =
        manifestContent (updatePackageVersion manifest v) := by
  refine ⟨getField_setField_self _ _ _, fun k hk => getField_setField_other hk _ _,
    map_fst_setField _ _ _, ?_⟩
  unfold updatePackageVersion
  rw [setField_setField]

/-- C8 witness: the example manifest bumped to `2.0.0`; the hypothesis of
the other-fields clause is discharged at the key `name`. -/
theorem claim_C8_witness :
    getField "version" (updatePackageVersion manifestExample "2.0.0") =
      some (Jv.str "2.0.0")
    ∧ getField "name" (updatePackageVersion manifestExample "2.0.0") =
        getField "name" manifestExample
    ∧ manifestContent (updatePackageVersion (updatePackageVersion manifestExample "2.0.0")
        "2.0.0") = manifestContent (updatePackageVersion manifestExample "2.0.0") :=
  ⟨(claim_C8 manifestExample "2.0.0").1,
    (claim_C8 manifestExample "2.0.0").2.1 "name" (by decide),
    (claim_C8 manifestExample "2.0.0").2.2.2⟩

/-! ## C4 — pre-mutation cancellation and post-mutation best effort -/

/-- C4: cancelling the version-choice or prerelease prompt leaves the trace
free of any disk, git or hosting mutation; once mutation has begun, a
failing commit step yields the warning and the release still proceeds to
tag creation, tag push and the hosted-release call (provided those steps
themselves succeed — they throw out of the flow otherwise). -/
theorem claim_C4 (e : RelEnv) (pkg : PkgInfo) :
    ((e.versionChoice = none ∨ e.prereleaseAnswer = none) →
      (createIndependentRelease e pkg).all (fun x => !isMutationEffect x) = true)
    ∧ (∀ v p, e.versionChoice = some v → e.prereleaseAnswer = some p →
        (hasChangesForPackage e.commits pkg.name = true
          ∨ e.noChangesAnswer = some "Yes, Continue") →
        e.commitOk = false → e.tagOk = true → e.pushOk = true →
        RelEffect.msgCommitFailedWarn ∈ createIndependentRelease e pkg
        ∧ RelEffect.createTagAttempt (generateTagName pkg.name v) ∈
            createIndependentRelease e pkg
        ∧ RelEffect.pushTagAttempt (generateTagName pkg.name v) ∈
            createIndependentRelease e pkg
        ∧ ∃ b, RelEffect.hostedReleaseAttempt (generateTagName pkg.name v) b ∈
            createIndependentRelease e pkg) := by
  constructor
  · rintro (h | h)
    · simp [createIndependentRelease, h]
    · match hv : e.versionChoice with
      | none => simp [createIndependentRelease, hv]
      | some v =>
        by_cases hc : hasChangesForPackage e.commits pkg.name
        · simp [createIndependentRelease, hv, hc, h]
        · by_cases hn : e.noChangesAnswer = some "Yes, Continue" <;>
            simp [createIndependentRelease, hv, hc, hn, h, isMutationEffect]
  · intro v p hv hp hproceed hcommit htag hpush
    rcases hproceed with hc | hn
    · refine ⟨?_, ?_, ?_, ⟨decide (p = "Yes"), ?_⟩⟩ <;>
        simp [createIndependentRelease, hv, hp, hc, hcommit, htag, hpush]
    · by_cases hc : hasChangesForPackage e.commits pkg.name
      · refine ⟨?_, ?_, ?_, ⟨decide (p = "Yes"), ?_⟩⟩ <;>
          simp [createIndependentRelease, hv, hp, hc, hcommit, htag, hpush]
      · refine ⟨?_, ?_, ?_, ⟨decide (p = "Yes"), ?_⟩⟩ <;>
          simp [createIndependentRelease, hv, hp, hc, hn, hcommit, htag, hpush]

/-- C4 witness: the cancellation clause applied to the prerelease-cancelled
environment, the best-effort clause to the failing-commit environment. -/
theorem claim_C4_witness :
    (createIndependentRelease relEnvCancelPre pkgLeftPad).all
        (fun x => !isMutationEffect x) = true
    ∧ RelEffect.msgCommitFailedWarn ∈ createIndependentRelease relEnvCommitFails pkgLeftPad
    ∧ RelEffect.createTagAttempt "v1.1.0" ∈
        createIndependentRelease relEnvCommitFails pkgLeftPad :=
  have h2 := (claim_C4 relEnvCommitFails pkgLeftPad).2 "1.1.0" "No" rfl rfl
    (Or.inl (by decide)) rfl rfl rfl
  ⟨(claim_C4 relEnvCancelPre pkgLeftPad).1 (Or.inr rfl), h2.1, h2.2.1⟩

/-! ## C10 — the automatic publish attempt is gated on `npm whoami` -/

theorem whoami_not_auto : isAutoPublishEffect (PubEffect.runNpm "npm whoami") = false := by
  decide

theorem whoami_publish_prefix :
    startsWithCh "npm whoami".data "npm publish".data = false := by decide

/-- A `checkNpmLogin` run that decides `true` consumed a successful
`npm whoami` execution. -/
theorem checkNpmLoginRun_true {e : PubEnv} {s : Nat} :
    (checkNpmLoginRun e s).2.1 = true → ∃ i, okWhoami (e.whoami i) = true := by
  unfold checkNpmLoginRun
  by_cases h : (checkNpmAuth e.envVars e.localNpmrc e.globalNpmrc).hasToken
  · by_cases h1 : okWhoami (e.whoami s)
    · exact fun _ => ⟨s, h1⟩
    · by_cases h2 : okWhoami (e.whoami (s + 1))
      · exact fun _ => ⟨s + 1, h2⟩
      · simp [h, h1, h2]
  · by_cases h1 : okWhoami (e.whoami s)
    · exact fun _ => ⟨s, h1⟩
    · simp [h, h1]

/-- A `checkNpmLogin` run never spawns a publish command. -/
theorem checkNpmLoginRun_no_auto (e : PubEnv) (s : Nat) :
    (checkNpmLoginRun e s).1.any isAutoPublishEffect = false := by
  unfold checkNpmLoginRun
  by_cases h : (checkNpmAuth e.envVars e.localNpmrc e.globalNpmrc).hasToken <;>
    by_cases h1 : okWhoami (e.whoami s) <;>
    by_cases h2 : okWhoami (e.whoami (s + 1)) <;>
      simp [h, h1, h2, List.any_append, isAutoPublishEffect] <;> decide

/-- `npmLogin` never spawns a publish command (its interactive login goes
through a terminal). -/
theorem npmLogin_no_auto (e : PubEnv) (p : String) :
    (npmLogin e p).any isAutoPublishEffect = false := by
  unfold npmLogin
  match e.authOption with
  | none => rfl
  | some l =>
    by_cases hl : l = "Interactive Login" <;> simp [hl, isAutoPublishEffect]

/-- If the post-gate flow spawns an automatic publish, some `npm whoami`
result in the environment's stream is a success. -/
theorem publishPackageAuth_whoami (e : PubEnv) (pkg : PkgInfo)
    (fxP : List PubEffect) (hfxP : fxP.any isAutoPublishEffect = false) :
    (publishPackageAuth e pkg fxP).any isAutoPublishEffect = true →
    ∃ i, okWhoami (e.whoami i) = true := by
  intro h
  rcases hrun : checkNpmLoginRun e 0 with ⟨fxL, ok, next⟩
  cases ok
  case true => exact checkNpmLoginRun_true (by rw [hrun])
  case false =>
    rcases hrun2 : checkNpmLoginRun e next with ⟨fxL2, ok2, next2⟩
    cases ok2
    case true => exact checkNpmLoginRun_true (by rw [hrun2])
    case false =>
      exfalso
      have hL : fxL.any isAutoPublishEffect = false := by
        have := checkNpmLoginRun_no_auto e 0
        rw [hrun] at this
        exact this
      have hL2 : fxL2.any isAutoPublishEffect = false := by
        have := checkNpmLoginRun_no_auto e next
        rw [hrun2] at this
        exact this
      unfold publishPackageAuth at h
      rw [hrun] at h
      simp only at h
      by_cases hact : e.loginAction = some "Login to npm"
      · rw [hrun2] at h
        simp [hact, isAutoPublishEffect, List.any_append, hL, hL2, hfxP,
          npmLogin_no_auto] at h
      · by_cases hact2 : e.loginAction = some "Open Terminal for Manual Publish"
        · rcases hopt : getPublishOptions e with - | ⟨tag, access⟩ <;>
            simp [hact, hact2, hopt, isAutoPublishEffect, List.any_append, hL, hfxP] at h
        · simp [hact, hact2, isAutoPublishEffect, List.any_append, hL, hfxP] at h

/-- C10: whenever the single-package publish flow spawns an automatic
(non-terminal) `npm publish`, some `npm whoami` execution in the
environment's result stream returned success with non-empty output free of
`ENEEDAUTH` (equivalently: if every `npm whoami` fails, the automatic
publish path is never entered, however `hasToken` came out). -/
theorem claim_C10 (e : PubEnv) (pkg : PkgInfo) :
    (publishPackage e pkg).any isAutoPublishEffect = true →
    ∃ i, okWhoami (e.whoami i) = true := by
  intro h
  by_cases hpriv : pkg.isPrivate = true
  · by_cases hans : (e.privateAnswer == some "Yes") = true
    · have hred : publishPackage e pkg =
          publishPackageAuth e pkg [PubEffect.msgPrivatePrompt] := by
        unfold publishPackage
        rw [hpriv, hans]
        rfl
      rw [hred] at h
      exact publishPackageAuth_whoami e pkg _ (by decide) h
    · have hans2 : (e.privateAnswer == some "Yes") = false := by
        cases hb : (e.privateAnswer == some "Yes")
        · rfl
        · exact absurd hb hans
      have hred : publishPackage e pkg = [PubEffect.msgPrivatePrompt] := by
        unfold publishPackage
        rw [hpriv, hans2]
        rfl
      rw [hred] at h
      exact absurd h (by decide)
  · have hpriv2 : pkg.isPrivate = false := by
      cases hb : pkg.isPrivate
      · rfl
      · exact absurd hb hpriv
    have hred : publishPackage e pkg = publishPackageAuth e pkg [] := by
      unfold publishPackage
      rw [hpriv2]
      rfl
    rw [hred] at h
    exact publishPackageAuth_whoami e pkg _ (by decide) h

/-- C10 witness: the automatic-publish environment does spawn a publish
command, and the conclusion exhibits a successful `whoami`. -/
theorem claim_C10_witness :
    (publishPackage pubEnvAuto pkgLeftPad).any isAutoPublishEffect = true
    ∧ ∃ i, okWhoami (pubEnvAuto.whoami i) = true :=
  ⟨by decide, claim_C10 pubEnvAuto pkgLeftPad (by decide)⟩

/-! ## C2 — terminal-based manual publish versus success messages -/

/-- C2 (code behaviour at the failing input): with the operator choosing
`Use Terminal for Manual Publish` at the OTP warning, `executePublish`
opens the terminal, sends the publish command and returns without a
success banner — and `publishPackage` then still displays
`Successfully published left-pad@1.0.0!`; likewise on the automatic
`EOTP`-failure fallback.  The flow thus conflates the terminal-opened
state with the publish-succeeded state, contradicting the repository's own
`terminal-publish-visual-fix-test.js` and the `Don't show success message`
comments inside `executePublish`. -/
theorem claim_C2 :
    (PubEffect.openTerminal "NPM Publish - left-pad" "/ws/left-pad" ∈
        publishPackage pubEnvTerminal pkgLeftPad
      ∧ PubEffect.termSend "npm publish" ∈ publishPackage pubEnvTerminal pkgLeftPad
      ∧ PubEffect.msgSuccessPublished "left-pad" "1.0.0" ∈
          publishPackage pubEnvTerminal pkgLeftPad)
    ∧ (PubEffect.openTerminal "NPM Publish with OTP - left-pad" "/ws/left-pad" ∈
        publishPackage pubEnvEotp pkgLeftPad
      ∧ PubEffect.msgSuccessPublished "left-pad" "1.0.0" ∈
          publishPackage pubEnvEotp pkgLeftPad) := by
  exact ⟨⟨by decide, by decide, by decide⟩, ⟨by decide, by decide⟩⟩

/-! ## C3 — the commit classifier -/

theorem takeScope_append {s : List Char} (h : ')' ∉ s) (r : List Char) :
    takeScope (s ++ ')' :: r) = some (s, r) := by
  induction s with
  | nil => simp [takeScope]
  | cons c cs ih =>
    have hc : c ≠ ')' := fun hc => h (hc ▸ List.mem_cons_self c cs)
    have hcs : ')' ∉ cs := fun hm => h (List.mem_cons_of_mem c hm)
    simp [takeScope, hc, ih hcs]

theorem takeScope_eq_some {cs s r : List Char} (h : takeScope cs = some (s, r)) :
    cs = s ++ ')' :: r ∧ ')' ∉ s := by
  induction cs generalizing s r with
  | nil => simp [takeScope] at h
  | cons c tl ih =>
    by_cases hc : c = ')'
    · subst hc
      have h0 : (some (([] : List Char), tl) : Option (List Char × List Char)) =
          some (s, r) := by rw [← h]; rfl
      injection h0 with h0
      injection h0 with hs hr
      subst hs
      subst hr
      exact ⟨rfl, by simp⟩
    · simp only [takeScope, if_neg hc] at h
      match htl : takeScope tl with
      | none => rw [htl] at h; exact absurd h (by simp)
      | some (s2, r2) =>
        rw [htl] at h
        simp only [Option.some.injEq, Prod.mk.injEq] at h
        obtain ⟨hs, hr⟩ := h
        obtain ⟨h1, h2⟩ := ih htl
        subst hr
        rw [← hs]
        refine ⟨by simp [h1], ?_⟩
        intro hm
        rcases List.mem_cons.mp hm with h3 | h3
        · exact hc h3.symm
        · exact h2 h3

theorem splitType_inv {msg : List Char} {t : String} {rest : List Char}
    (h : splitType msg = some (t, rest)) :
    t ∈ knownCommitTypes ∧ msg = t.data ++ rest := by
  unfold splitType at h
  split_ifs at h with h1 h2 h3 h4 h5 h6 h7 h8 <;>
    first
      | (simp only [Option.some.injEq, Prod.mk.injEq] at h
         obtain ⟨rfl, rfl⟩ := h
         refine ⟨by decide, ?_⟩
         first
           | (obtain ⟨u, hu⟩ := List.isPrefixOf_iff_prefix.mp h1
              rw [← hu, show (4 : Nat) = ("feat".data : List Char).length from by decide,
                List.drop_left])
           | (obtain ⟨u, hu⟩ := List.isPrefixOf_iff_prefix.mp h2
              rw [← hu, show (3 : Nat) = ("fix".data : List Char).length from by decide,
                List.drop_left])
           | (obtain ⟨u, hu⟩ := List.isPrefixOf_iff_prefix.mp h3
              rw [← hu, show (4 : Nat) = ("docs".data : List Char).length from by decide,
                List.drop_left])
           | (obtain ⟨u, hu⟩ := List.isPrefixOf_iff_prefix.mp h4
              rw [← hu, show (5 : Nat) = ("style".data : List Char).length from by decide,
                List.drop_left])
           | (obtain ⟨u, hu⟩ := List.isPrefixOf_iff_prefix.mp h5
              rw [← hu, show (8 : Nat) = ("refactor".data : List Char).length from by decide,
                List.drop_left])
           | (obtain ⟨u, hu⟩ := List.isPrefixOf_iff_prefix.mp h6
              rw [← hu, show (4 : Nat) = ("perf".data : List Char).length from by decide,
                List.drop_left])
           | (obtain ⟨u, hu⟩ := List.isPrefixOf_iff_prefix.mp h7
              rw [← hu, show (4 : Nat) = ("test".data : List Char).length from by decide,
                List.drop_left])
           | (obtain ⟨u, hu⟩ := List.isPrefixOf_iff_prefix.mp h8
              rw [← hu, show (5 : Nat) = ("chore".data : List Char).length from by decide,
                List.drop_left]))
      | simp at h

theorem drop_append_of_length {p : List Char} {n : Nat} (hn : p.length = n)
    (x : List Char) : (p ++ x).drop n = x := by
  rw [← hn]
  exact List.drop_left p x

/-- `splitType` on a message that literally starts with a known type. -/
theorem splitType_append (t : String) (ht : t ∈ knownCommitTypes) (x : List Char) :
    splitType (t.data ++ x) = some (t, x) := by
  fin_cases ht <;>
    simp [splitType, List.isPrefixOf_cons₂, drop_append_of_length]

theorem afterTypeGroup_colon (r : List Char) :
    afterTypeGroup (':' :: r) = some none := rfl

theorem afterTypeGroup_append {s : List Char} (hs : ')' ∉ s) (r : List Char) :
    afterTypeGroup ('(' :: (s ++ ')' :: ':' :: r)) = some (some s) := by
  unfold afterTypeGroup
  simp [takeScope_append hs]

theorem afterTypeScopeGroup_colon (r : List Char) :
    afterTypeScopeGroup (':' :: r) = some none := rfl

theorem afterTypeScopeGroup_append {s : List Char} (hs : ')' ∉ s) (r : List Char) :
    afterTypeScopeGroup ('(' :: (s ++ ')' :: ':' :: r)) =
      (if s.isEmpty then none else some (some s)) := by
  unfold afterTypeScopeGroup
  simp [takeScope_append hs]

theorem afterTypeGroup_none_inv {rest : List Char}
    (h : afterTypeGroup rest = some none) : ∃ r, rest = ':' :: r := by
  match rest with
  | [] => simp [afterTypeGroup] at h
  | c :: cs =>
    by_cases hc : c = ':'
    · exact ⟨cs, by rw [hc]⟩
    · by_cases hp : c = '('
      · subst hp
        match hts : takeScope cs with
        | none => simp [afterTypeGroup, hts] at h
        | some (s2, []) => simp [afterTypeGroup, hts] at h
        | some (s2, c2 :: r2) =>
          by_cases hc2 : c2 = ':' <;> simp [afterTypeGroup, hts, hc2] at h
      · simp [afterTypeGroup, hc, hp] at h

theorem afterTypeGroup_some_inv {rest s : List Char}
    (h : afterTypeGroup rest = some (some s)) :
    ∃ r, rest = '(' :: (s ++ ')' :: ':' :: r) ∧ ')' ∉ s := by
  match rest with
  | [] => simp [afterTypeGroup] at h
  | c :: cs =>
    by_cases hc : c = ':'
    · subst hc
      simp [afterTypeGroup] at h
    · by_cases hp : c = '('
      · subst hp
        match hts : takeScope cs with
        | none => simp [afterTypeGroup, hts] at h
        | some (s2, []) => simp [afterTypeGroup, hts] at h
        | some (s2, c2 :: r2) =>
          by_cases hc2 : c2 = ':'
          · subst hc2
            simp only [afterTypeGroup, hts] at h
            simp at h
            obtain ⟨h1, h2⟩ := takeScope_eq_some hts
            subst h
            exact ⟨r2, by rw [h1], h2⟩
          · simp [afterTypeGroup, hts, hc2] at h
      · simp [afterTypeGroup, hc, hp] at h

theorem afterTypeScopeGroup_some_inv {rest s : List Char}
    (h : afterTypeScopeGroup rest = some (some s)) :
    ∃ r, rest = '(' :: (s ++ ')' :: ':' :: r) ∧ ')' ∉ s := by
  match rest with
  | [] => simp [afterTypeScopeGroup] at h
  | c :: cs =>
    by_cases hc : c = ':'
    · subst hc
      simp [afterTypeScopeGroup] at h
    · by_cases hp : c = '('
      · subst hp
        match hts : takeScope cs with
        | none => simp [afterTypeScopeGroup, hts] at h
        | some (s2, []) => simp [afterTypeScopeGroup, hts] at h
        | some (s2, c2 :: r2) =>
          by_cases hc2 : c2 = ':'
          · subst hc2
            by_cases hse : s2.isEmpty
            · simp [afterTypeScopeGroup, hts, hse] at h
            · simp only [afterTypeScopeGroup, hts] at h
              simp [hse] at h
              obtain ⟨h1, h2⟩ := takeScope_eq_some hts
              subst h
              exact ⟨r2, by rw [h1], h2⟩
          · simp [afterTypeScopeGroup, hts, hc2] at h
      · simp [afterTypeScopeGroup, hc, hp] at h

/-- C3 counterexample: the classifier recognizes neither the `ci` type nor
the `!` breaking marker — a commit whose subject is `ci: ...` (type in the
claimed 11-value set) classifies as `other`, as does `feat!: ...`. -/
theorem claim_C3_counterexample :
    commitType "ci: switch to GitHub Actions" = "other"
    ∧ commitType "feat!: drop node 14" = "other"
    ∧ commitScope "feat!: drop node 14" = none := by
  refine ⟨by decide, by decide, by decide⟩

/-- C3 (amended): the recognized type set is the eight-value
{feat, fix, docs, style, refactor, perf, test, chore} — `ci`, `build` and
`revert` are not in the alternation, and a `!` marker defeats the match.
For messages of the recognized shapes the grouping classifier yields
exactly the matched type, and the relevance matcher captures exactly the
parenthesised scope when it is non-empty; every message admitting no such
decomposition classifies as `other` with no scope. -/
theorem claim_C3 :
    (∀ t ∈ knownCommitTypes, ∀ s r : List Char, ')' ∉ s →
      commitTypeChars (t.data ++ ':' :: r) = t
      ∧ commitTypeChars (t.data ++ '(' :: (s ++ ')' :: ':' :: r)) = t
      ∧ commitScopeChars (t.data ++ ':' :: r) = none
      ∧ commitScopeChars (t.data ++ '(' :: (s ++ ')' :: ':' :: r)) =
          (if s.isEmpty then none else some s))
    ∧ (∀ msg : List Char, ¬ ConvDecomp msg →
        commitTypeChars msg = "other" ∧ commitScopeChars msg = none) := by
  constructor
  · intro t ht s r hs
    refine ⟨?_, ?_, ?_, ?_⟩
    · simp [commitTypeChars, matchConvType, splitType_append t ht, afterTypeGroup_colon]
    · simp [commitTypeChars, matchConvType, splitType_append t ht,
        afterTypeGroup_append hs]
    · simp [commitScopeChars, matchConvTypeScope, splitType_append t ht,
        afterTypeScopeGroup_colon]
    · by_cases hse : s.isEmpty = true
      · have hs0 : s = [] := List.isEmpty_iff.mp hse
        subst hs0
        simp [commitScopeChars, matchConvTypeScope, splitType_append t ht,
          show afterTypeScopeGroup ('(' :: ')' :: ':' :: r) = none from rfl]
      · simp [commitScopeChars, matchConvTypeScope, splitType_append t ht,
          afterTypeScopeGroup_append hs, hse]
  · intro msg hnd
    constructor
    · match hm : matchConvType msg with
      | none => simp [commitTypeChars, hm]
      | some (t, sc) =>
        exfalso
        apply hnd
        unfold matchConvType at hm
        obtain ⟨⟨t2, rest⟩, hsp, hmap⟩ := Option.bind_eq_some.mp hm
        dsimp only at hmap
        obtain ⟨ht2, hmsg⟩ := splitType_inv hsp
        obtain ⟨sc2, hag, -⟩ := Option.map_eq_some'.mp hmap
        match sc2, hag with
        | none, hag =>
          obtain ⟨r, hr⟩ := afterTypeGroup_none_inv hag
          exact ⟨t2, ht2, r, Or.inl (by rw [hmsg, hr])⟩
        | some s2, hag =>
          obtain ⟨r, hr, hnp⟩ := afterTypeGroup_some_inv hag
          exact ⟨t2, ht2, r, Or.inr ⟨s2, hnp, by rw [hmsg, hr]⟩⟩
    · match hm : matchConvTypeScope msg with
      | none => simp [commitScopeChars, hm]
      | some (t, none) => simp [commitScopeChars, hm]
      | some (t, some s2) =>
        exfalso
        apply hnd
        unfold matchConvTypeScope at hm
        obtain ⟨⟨t2, rest⟩, hsp, hmap⟩ := Option.bind_eq_some.mp hm
        dsimp only at hmap
        obtain ⟨ht2, hmsg⟩ := splitType_inv hsp
        obtain ⟨sc2, hag, heq⟩ := Option.map_eq_some'.mp hmap
        match sc2, hag, heq with
        | none, hag, heq => simp at heq
        | some s3, hag, heq =>
          obtain ⟨r, hr, hnp⟩ := afterTypeScopeGroup_some_inv hag
          exact ⟨t2, ht2, r, Or.inr ⟨s3, hnp, by rw [hmsg, hr]⟩⟩

/-- C3 witness: the recognized-shape clause at `feat(a): x`, the
no-decomposition clause at the plain message `hello`. -/
theorem claim_C3_witness :
    commitTypeChars ("feat".data ++ ':' :: " x".data) = "feat"
    ∧ commitTypeChars ("feat".data ++ '(' :: (['a'] ++ ')' :: ':' :: " x".data)) = "feat"
    ∧ commitTypeChars "hello".data = "other" :=
  have h1 := claim_C3.1 "feat" (by decide) ['a'] " x".data (by decide)
  have h2 := claim_C3.2 "hello".data (by
    rintro ⟨t, ht, r, h | ⟨s, hs, h⟩⟩ <;> fin_cases ht <;> simp_all)
  ⟨h1.1, h1.2.1, h2.1⟩

/-! ## C6 — changelog reorganization -/

theorem pushBullet_bullets {acc : NoteSections} {b : List Char} (sec : String)
    (hacc : SectionsBullets acc) (hb : startsWithCh b "-".data = true) :
    SectionsBullets (pushBullet acc sec b) := by
  intro x hx
  have hx2 : (x ∈ acc.added ∨ x ∈ acc.changed ∨ x ∈ acc.fixed) ∨ x = b := by
    unfold pushBullet at hx
    split_ifs at hx <;>
      simp only [List.mem_append, List.mem_singleton] at hx <;> tauto
  rcases hx2 with h | rfl
  · exact hacc x h
  · exact hb

theorem scanNotes_bullets (lines : List (List Char)) :
    ∀ (cur : String) (acc : NoteSections), SectionsBullets acc →
      SectionsBullets (scanNotes cur acc lines) := by
  induction lines with
  | nil => intro cur acc h; exact h
  | cons line rest ih =>
    intro cur acc h
    unfold scanNotes
    by_cases h1 : startsWithCh (trimCh line) "###".data = true
    · rw [if_pos h1]
      exact ih _ _ h
    · rw [if_neg h1]
      by_cases h2 : startsWithCh (trimCh line) "-".data = true
      · rw [if_pos h2]
        by_cases h3 : cur ≠ ""
        · rw [if_pos h3]
          exact ih _ _ (pushBullet_bullets cur h h2)
        · rw [if_neg h3]
          exact ih _ _ h
      · rw [if_neg h2]
        exact ih _ _ h

theorem fallbackChanged_bullets (notes : List Char) :
    ∀ b ∈ fallbackChanged notes, startsWithCh b "-".data = true := by
  intro b hb
  unfold fallbackChanged at hb
  obtain ⟨line, -, hline⟩ := List.mem_map.mp hb
  by_cases h : startsWithCh line "-".data = true
  · rw [if_pos h] at hline
    exact hline ▸ h
  · rw [if_neg h] at hline
    rw [← hline]
    simp [startsWithCh, List.isPrefixOf_cons₂, List.isPrefixOf_nil_left]

theorem applyFallback_bullets (notes : List Char) {s : NoteSections}
    (hs : SectionsBullets s) : SectionsBullets (applyFallback notes s) := by
  unfold applyFallback
  split_ifs with h
  · match hf : fallbackChanged notes with
    | [] => exact hs
    | l :: ls =>
      intro b hb
      rcases hb with hb | hb | hb
      · exact hs b (Or.inl hb)
      · exact fallbackChanged_bullets notes b (hf ▸ hb)
      · exact hs b (Or.inr (Or.inr hb))
  · exact hs

theorem noteSectionsOf_bullets (notes : List Char) :
    SectionsBullets (noteSectionsOf notes) :=
  applyFallback_bullets notes
    (scanNotes_bullets (splitOnCh '\n' notes) "" ⟨[], [], []⟩
      (by intro b hb; simp at hb))

theorem header_startsWith (name : String) :
    startsWithCh ("### ".data ++ name.data) "###".data = true := by
  simp [startsWithCh, List.isPrefixOf_cons₂, List.isPrefixOf_nil_left]

theorem bullet_not_header {b : List Char} (hb : startsWithCh b "-".data = true) :
    startsWithCh b "###".data = false := by
  obtain ⟨u, hu⟩ := List.isPrefixOf_iff_prefix.mp hb
  rw [← hu]
  simp [startsWithCh, List.isPrefixOf_cons₂]

theorem filter_eq_single {p : List Char → Bool} {a : List Char}
    {l : List (List Char)} (ha : p a = true) (hl : ∀ x ∈ l, ¬ p x = true) :
    (a :: l).filter p = [a] := by
  simp [List.filter_cons, ha, List.filter_eq_nil_iff.mpr hl]

theorem filter_sectionBlock (name : String) (bs : List (List Char))
    (hb : ∀ b ∈ bs, startsWithCh b "-".data = true) :
    (sectionBlock name bs).filter (fun l => startsWithCh l "###".data) =
      (if bs.isEmpty then [] else [("### ".data ++ name.data)]) := by
  unfold sectionBlock
  split_ifs with h
  · simp
  · refine filter_eq_single (header_startsWith name) ?_
    intro l hl
    rcases List.mem_cons.mp hl with rfl | hl
    · simp [startsWithCh, List.isPrefixOf]
    · rcases List.mem_append.mp hl with hl | hl
      · simp [bullet_not_header (hb l hl)]
      · simp only [List.mem_singleton] at hl
        simp [hl, startsWithCh, List.isPrefixOf]

theorem mem_sectionBlock {b : List Char} {bs : List (List Char)} (h : b ∈ bs)
    (name : String) : b ∈ sectionBlock name bs := by
  unfold sectionBlock
  rw [if_neg (by simp only [List.isEmpty_iff]; exact List.ne_nil_of_mem h)]
  simp [h]

/-- C6 counterexample: a bullet standing before the first heading is
dropped when any heading-associated bullet exists — the input contains
`stray`, the reorganized output does not, refuting "never silently drops a
bullet". -/
theorem claim_C6_counterexample :
    organizeReleaseNotesForChangelog "- stray\n### 🚀 Features\n- add X" =
      "### Added\n\n- add X"
    ∧ containsCh "- stray\n### 🚀 Features\n- add X".data "stray".data = true
    ∧ containsCh "### Added\n\n- add X".data "stray".data = false := by
  refine ⟨by decide, by decide, by decide⟩

/-- C6 (amended): the rendered headings are, in order, a sub-sequence of
the six canonical headings (so only canonical non-empty categories are
rendered, each at most once — in particular at most one `Changed`);
every bullet collected by the scan — Features→Added, Bug Fixes→Fixed, the
other seven labels (and unrecognized headings)→Changed — appears in the
output lines; and the heading mapping is exactly the fixed table.  Bullets
appearing before any heading are swept into Changed only via the
whole-text fallback, i.e. when no heading-associated bullet exists at all;
otherwise they are dropped (see the counterexample). -/
theorem claim_C6 :
    (∀ notes : List Char,
      List.Sublist ((organizeLines notes).filter (fun l => startsWithCh l "###".data))
        canonicalHeadings
      ∧ (∀ b, (b ∈ (noteSectionsOf notes).added ∨ b ∈ (noteSectionsOf notes).changed
            ∨ b ∈ (noteSectionsOf notes).fixed) → b ∈ organizeLines notes))
    ∧ sectionMapping "🚀 Features".data = "Added"
    ∧ sectionMapping "🐛 Bug Fixes".data = "Fixed"
    ∧ (∀ other ∈ (["⚡ Performance Improvements", "♻️ Code Refactoring",
        "📚 Documentation", "💄 Styles", "🧪 Tests", "🔧 Chores",
        "📝 Other Changes"] : List String),
        sectionMapping other.data = "Changed") := by
  refine ⟨fun notes => ⟨?_, ?_⟩, by decide, by decide, by decide⟩
  · have hsb := noteSectionsOf_bullets notes
    unfold organizeLines
    rw [List.filter_append, List.filter_append, List.filter_append,
      List.filter_append, List.filter_append]
    rw [filter_sectionBlock "Added" _ (fun b hb => hsb b (Or.inl hb)),
      filter_sectionBlock "Changed" _ (fun b hb => hsb b (Or.inr (Or.inl hb))),
      filter_sectionBlock "Deprecated" [] (by simp),
      filter_sectionBlock "Removed" [] (by simp),
      filter_sectionBlock "Fixed" _ (fun b hb => hsb b (Or.inr (Or.inr hb))),
      filter_sectionBlock "Security" [] (by simp)]
    by_cases h1 : (noteSectionsOf notes).added.isEmpty <;>
      by_cases h2 : (noteSectionsOf notes).changed.isEmpty <;>
        by_cases h3 : (noteSectionsOf notes).fixed.isEmpty <;>
          simp [h1, h2, h3, canonicalHeadings] <;> decide
  · intro b hb
    unfold organizeLines
    simp only [List.mem_append]
    rcases hb with h | h | h
    · exact Or.inl (Or.inl (Or.inl (Or.inl (Or.inl (mem_sectionBlock h "Added")))))
    · exact Or.inl (Or.inl (Or.inl (Or.inl (Or.inr (mem_sectionBlock h "Changed")))))
    · exact Or.inl (Or.inr (mem_sectionBlock h "Fixed"))

/-- C6 witness: the sweep clause applied to a concrete Features section. -/
theorem claim_C6_witness :
    "- add X".data ∈ organizeLines "### 🚀 Features\n- add X".data :=
  ((claim_C6.1 "### 🚀 Features\n- add X".data).2 "- add X".data (Or.inl (by decide)))

/-! ## C7 — where `updateChangelog` inserts the new entry -/

/-- When every heading in the tail is preceded by a blank line, the
`headerEndIndex` scan finds nothing. -/
theorem ebpAux_none {prev : List Char} {rest : List (List Char)} (i : Nat)
    (h : ebpAux prev rest = true) : headerEndIdxAux prev i rest = none := by
  induction rest generalizing prev i with
  | nil => rfl
  | cons cur rest ih =>
    simp only [ebpAux, Bool.and_eq_true] at h
    obtain ⟨h1, h2⟩ := h
    have hc : (startsWithCh cur ("## ").data && !(trimCh prev).isEmpty) = false := by
      revert h1; unfold isEntryLine
      cases startsWithCh cur ("## ").data <;> cases (trimCh prev).isEmpty <;> simp
    simp only [headerEndIdxAux, hc, Bool.false_eq_true, if_false]
    exact ih _ h2

theorem entriesBlankPreceded_headerEndIdx {ls : List (List Char)}
    (h : entriesBlankPreceded ls = true) : headerEndIdx ls = none := by
  cases ls with
  | nil => rfl
  | cons l0 rest => exact ebpAux_none 1 h

/-- `findIndex` on a list whose first match is the element after `pre`. -/
theorem findIdx_first {p : List Char → Bool} (pre : List (List Char)) (title : List Char)
    (post : List (List Char)) (hpre : ∀ l ∈ pre, p l = false) (ht : p title = true) :
    ∀ i, List.findIdx? p (pre ++ title :: post) i = some (i + pre.length) := by
  induction pre with
  | nil => intro i; simp [List.findIdx?, ht]
  | cons x xs ih =>
    intro i
    have hx : p x = false := hpre x (by simp)
    have ihs : ∀ l ∈ xs, p l = false := fun l hl => hpre l (by simp [hl])
    simp only [List.cons_append, List.findIdx?, hx, Bool.false_eq_true, if_false]
    rw [List.append_eq, ih ihs (i + 1)]
    congr 1
    simp
    omega

theorem afterFirstHashIdx_first (pre : List (List Char)) (title : List Char)
    (post : List (List Char)) (hpre : ∀ l ∈ pre, startsWithCh l "#".data = false)
    (ht : startsWithCh title "#".data = true) :
    afterFirstHashIdx (pre ++ title :: post) = pre.length + 1 := by
  unfold afterFirstHashIdx
  rw [findIdx_first pre title post hpre ht 0]
  simp

theorem getLast_append_ne {l1 l2 : List (List Char)} (h : l2 ≠ []) :
    (l1 ++ l2).getLast? = l2.getLast? := by
  rw [List.getLast?_append]
  cases l2 with
  | nil => exact absurd rfl h
  | cons x xs =>
    have hs : ((x :: xs : List (List Char)).getLast?).isSome := by
      rw [List.getLast?_isSome]
      simp
    exact Option.or_of_isSome hs

/-- Reduction of `updateChangelogLines` on a non-empty file in which the
`headerEndIndex` scan finds nothing: the entry goes right after the first
`#`-heading line. -/
theorem updateChangelogLines_none (name v date notes existing : String)
    (hemp : (trimCh existing.data).isEmpty = false)
    (hnone : headerEndIdx (splitOnCh '\n' existing.data) = none) :
    updateChangelogLines name v date notes existing =
      (splitOnCh '\n' existing.data).take
          (afterFirstHashIdx (splitOnCh '\n' existing.data))
        ++ [[]]
        ++ splitOnCh '\n' (trimCh (newChangelogEntry name v date notes).data)
        ++ [[]]
        ++ (splitOnCh '\n' existing.data).drop
          (afterFirstHashIdx (splitOnCh '\n' existing.data)) := by
  unfold updateChangelogLines
  simp only [hemp, Bool.false_eq_true, if_false, hnone]

/-- Reduction of `updateChangelogLines` on a non-empty file in which the
`headerEndIndex` scan finds line `k`: the entry goes right above line `k`. -/
theorem updateChangelogLines_some (name v date notes existing : String) (k : Nat)
    (hemp : (trimCh existing.data).isEmpty = false)
    (hsome : headerEndIdx (splitOnCh '\n' existing.data) = some k) :
    updateChangelogLines name v date notes existing =
      (splitOnCh '\n' existing.data).take k
        ++ splitOnCh '\n' (trimCh (newChangelogEntry name v date notes).data)
        ++ [[]]
        ++ (splitOnCh '\n' existing.data).drop k := by
  unfold updateChangelogLines
  simp only [hemp, Bool.false_eq_true, if_false, hsome]

set_option maxRecDepth 20000 in
/-- **C7, counterexample.** In the second write of the scenario (first write
into an empty file, then a release of 1.1.0 on top of it), the new dated
entry lands at line 2, directly after the `# Changelog` title and ABOVE the
preamble text, whose line 9 now sits strictly between the new entry and the
first pre-existing dated entry at line 13 — not "directly above the first
existing dated entry" as the claim states.  This happens because the
generated layout always puts a blank line before each `## ` heading, so the
`headerEndIndex` scan never fires and the fallback inserts right after the
first `#` line. -/
theorem claim_C7_counterexample :
    c7SecondLines[2]? = some ("## [1.1.0](releases/tag/v1.1.0) - 2025-01-02").data
    ∧ c7SecondLines[9]? =
        some ("All notable changes to this project will be documented in this file.").data
    ∧ (trimCh
        ("All notable changes to this project will be documented in this file.").data).isEmpty
        = false
    ∧ c7SecondLines[13]? = some ("## [1.0.0](releases/tag/v1.0.0) - 2025-01-01").data
    ∧ c7SecondLines.filter isEntryLine =
        [("## [1.1.0](releases/tag/v1.1.0) - 2025-01-02").data,
         ("## [1.0.0](releases/tag/v1.0.0) - 2025-01-01").data] := by
  refine ⟨by decide, by decide, by decide, by decide, by decide⟩

set_option maxRecDepth 20000 in
/-- **C7** (amended).  Writing a changelog entry keeps every previous line
(in order) and adds the new entry exactly once, newest first; the insertion
point is NOT always directly above the first existing dated entry: (1) in
the layout the function itself generates — every `## ` heading preceded by
a blank line — the entry is spliced right after the first `#`-heading line,
above the preamble text, and the dated-heading count and `# Changelog`
count grow exactly by the corresponding counts of the entry's own lines,
with the last line unchanged; (2) when some `## ` heading directly follows
a non-blank line, the entry is spliced directly above the first such
heading, as the claim describes; (3) on an empty file the result carries
the preamble title once and exactly one dated heading, and the second write
of the concrete scenario shows exactly two dated headings, newest first,
with the title still unique. -/
theorem claim_C7 :
    (∀ (name v date notes existing : String) (pre : List (List Char))
        (title : List Char) (post : List (List Char)),
      (trimCh existing.data).isEmpty = false →
      entriesBlankPreceded (splitOnCh '\n' existing.data) = true →
      splitOnCh '\n' existing.data = pre ++ title :: post →
      (∀ l ∈ pre, startsWithCh l "#".data = false) →
      startsWithCh title "#".data = true →
      updateChangelogLines name v date notes existing =
          pre ++ [title] ++ [[]]
            ++ splitOnCh '\n' (trimCh (newChangelogEntry name v date notes).data)
            ++ [[]] ++ post
        ∧ List.Sublist (splitOnCh '\n' existing.data)
            (updateChangelogLines name v date notes existing)
        ∧ (updateChangelogLines name v date notes existing).countP isEntryLine =
            (splitOnCh '\n'
                (trimCh (newChangelogEntry name v date notes).data)).countP isEntryLine
              + (splitOnCh '\n' existing.data).countP isEntryLine
        ∧ (updateChangelogLines name v date notes existing).count ("# Changelog").data =
            (splitOnCh '\n'
                (trimCh (newChangelogEntry name v date notes).data)).count
                ("# Changelog").data
              + (splitOnCh '\n' existing.data).count ("# Changelog").data
        ∧ (post ≠ [] →
            (updateChangelogLines name v date notes existing).getLast? =
              (splitOnCh '\n' existing.data).getLast?))
    ∧ (∀ (name v date notes existing : String) (k : Nat),
      (trimCh existing.data).isEmpty = false →
      headerEndIdx (splitOnCh '\n' existing.data) = some k →
      updateChangelogLines name v date notes existing =
          (splitOnCh '\n' existing.data).take k
            ++ splitOnCh '\n' (trimCh (newChangelogEntry name v date notes).data)
            ++ [[]]
            ++ (splitOnCh '\n' existing.data).drop k
        ∧ List.Sublist (splitOnCh '\n' existing.data)
            (updateChangelogLines name v date notes existing)
        ∧ (updateChangelogLines name v date notes existing).countP isEntryLine =
            (splitOnCh '\n'
                (trimCh (newChangelogEntry name v date notes).data)).countP isEntryLine
              + (splitOnCh '\n' existing.data).countP isEntryLine)
    ∧ ((splitOnCh '\n' c7FirstContent.data).countP isEntryLine = 1
        ∧ (splitOnCh '\n' c7FirstContent.data).count ("# Changelog").data = 1
        ∧ (splitOnCh '\n' c7FirstContent.data).head? = some ("# Changelog").data
        ∧ c7SecondLines.countP isEntryLine = 2
        ∧ c7SecondLines.count ("# Changelog").data = 1
        ∧ (c7SecondLines.filter isEntryLine).head? =
            some ("## [1.1.0](releases/tag/v1.1.0) - 2025-01-02").data) := by
  refine ⟨?_, ?_, by decide, by decide, by decide, by decide, by decide, by decide⟩
  · intro name v date notes existing pre title post hemp hebp hl hpre ht
    have hnone : headerEndIdx (splitOnCh '\n' existing.data) = none :=
      entriesBlankPreceded_headerEndIdx hebp
    have hred := updateChangelogLines_none name v date notes existing hemp hnone
    have hidx : afterFirstHashIdx (splitOnCh '\n' existing.data) = pre.length + 1 := by
      rw [hl]; exact afterFirstHashIdx_first pre title post hpre ht
    have htake : (splitOnCh '\n' existing.data).take
        (afterFirstHashIdx (splitOnCh '\n' existing.data)) = pre ++ [title] := by
      rw [hidx, hl, List.take_append 1]; rfl
    have hdrop : (splitOnCh '\n' existing.data).drop
        (afterFirstHashIdx (splitOnCh '\n' existing.data)) = post := by
      rw [hidx, hl, List.drop_append 1]; rfl
    rw [htake, hdrop] at hred
    refine ⟨hred, ?_, ?_, ?_, ?_⟩
    · rw [hred, hl]
      have h1 : List.Sublist post
          (([[]] ++ splitOnCh '\n' (trimCh (newChangelogEntry name v date notes).data)
            ++ [[]]) ++ post) :=
        List.sublist_append_right _ _
      have h2 := (h1.cons₂ title).append_left pre
      have hshape : pre ++ [title] ++ [[]]
            ++ splitOnCh '\n' (trimCh (newChangelogEntry name v date notes).data)
            ++ [[]] ++ post
          = pre ++ (title
            :: (([[]] ++ splitOnCh '\n' (trimCh (newChangelogEntry name v date notes).data)
              ++ [[]]) ++ post)) := by
        simp
      rw [hshape]
      exact h2
    · rw [hred, hl]
      simp only [List.countP_append, List.countP_cons, List.countP_nil,
        List.append_assoc, List.cons_append, List.nil_append]
      split_ifs <;> simp_all [isEntryLine, startsWithCh] <;> omega
    · rw [hred, hl]
      simp only [List.count_append, List.count_cons, List.count_nil,
        List.append_assoc, List.cons_append, List.nil_append]
      split_ifs <;> simp_all <;> omega
    · intro hpost
      have hcons : pre ++ title :: post = (pre ++ [title]) ++ post := by simp
      rw [hred, hl, hcons]
      have hr : pre ++ [title] ++ [[]]
            ++ splitOnCh '\n' (trimCh (newChangelogEntry name v date notes).data)
            ++ [[]] ++ post
          = (pre ++ [title] ++ [[]]
            ++ splitOnCh '\n' (trimCh (newChangelogEntry name v date notes).data)
            ++ [[]]) ++ post := by
        simp
      rw [hr, getLast_append_ne hpost, getLast_append_ne hpost]
  · intro name v date notes existing k hemp hsome
    have hred := updateChangelogLines_some name v date notes existing k hemp hsome
    refine ⟨hred, ?_, ?_⟩
    · rw [hred]
      have h1 := (List.sublist_append_right
        (splitOnCh '\n' (trimCh (newChangelogEntry name v date notes).data) ++ [[]])
        ((splitOnCh '\n' existing.data).drop k)).append_left
        ((splitOnCh '\n' existing.data).take k)
      simpa [List.append_assoc] using h1
    · rw [hred]
      nth_rewrite 3 [← List.take_append_drop k (splitOnCh '\n' existing.data)]
      simp only [List.countP_append, List.countP_cons, List.countP_nil,
        List.append_assoc, List.cons_append, List.nil_append]
      split_ifs <;> simp_all [isEntryLine, startsWithCh] <;> omega

set_option maxRecDepth 20000 in
/-- C7 witness: the amended theorem applied to a standard-layout file and to
a tight-layout file. -/
theorem claim_C7_witness :
    List.Sublist (splitOnCh '\n' c7Std.data)
        (updateChangelogLines "pkg" "1.2.0" "2025-02-03" "- z" c7Std)
    ∧ List.Sublist (splitOnCh '\n' c7Tight.data)
        (updateChangelogLines "pkg" "1.2.0" "2025-02-03" "- z" c7Tight) := by
  constructor
  · exact (claim_C7.1 "pkg" "1.2.0" "2025-02-03" "- z" c7Std []
      (("# Changelog").data)
      [[], ("## [0.1.0](releases/tag/v0.1.0) - 2020-01-01").data, [], ("- old").data]
      (by decide) (by decide) (by decide) (by decide) (by decide)).2.1
  · exact (claim_C7.2.1 "pkg" "1.2.0" "2025-02-03" "- z" c7Tight 2
      (by decide) (by decide)).2.1

end RepoMgr
